import Mathlib

/-!
Shallow embedding of the multi-file reader layer of rio-viz
(`rio_viz/io/reader.py` and `rio_viz/io/mosaic.py`).

Pure data is translated directly from the source; the external capability
supplied by `rio_tiler` (`COGReader` handles, `mosaic_reader`,
`multi_values`, `BaseReader.spatial_info`) is modelled from the spec's
collaborator contract, as marked on each definition.  Python raster values
are embedded as integers, coordinates as rationals, fallible operations as
`Except`/`Option`.
-/

namespace RioViz

/-- A colormap palette (opaque payload; only presence and identity matter
to the reader layer). -/
abbrev Colormap := List (Nat × Nat)

/-- Geographic bounding box `(left, bottom, right, top)` as exposed by a
dataset's `bounds` attribute.  Coordinates are modelled as rationals. -/
structure BBox where
  left : ℚ
  bottom : ℚ
  right : ℚ
  top : ℚ
deriving DecidableEq, Repr

/-- A tile read result: `rio_tiler.models.ImageData` reduced to its pixel
payload and validity mask (`true` marks a valid pixel). -/
structure ImageData where
  data : List Int
  mask : List Bool
deriving DecidableEq, Repr

/-- `rio_tiler.models.Info` reduced to the fields this embedding tracks:
the spatial fields (`bounds`, `center`, `minzoom`, `maxzoom`), the metadata
fields copied from a dataset, and the optional size fields
(`width`, `height`, `overviews`) whose model default is `none`. -/
structure Info where
  bounds : BBox
  center : ℚ × ℚ × Int
  minzoom : Int
  maxzoom : Int
  band_metadata : List (String × String)
  band_descriptions : List (String × String)
  dtype : String
  nodata_type : String
  colorinterp : List String
  width : Option Nat
  height : Option Nat
  overviews : Option (List Nat)
deriving DecidableEq, Repr

/-- Modelled from the spec: the external per-file reader capability
(`rio_tiler.io.COGReader`, §6 "Collaborator contract"; not code of this
repository).  An opened handle exposes the first band's data type
(`dataset.dtypes[0]`), the band count (`dataset.count`), an optional
colormap, bounds, CRS, a zoom range, per-file metadata (`info()`), and
tile/point reads that either return data or raise an "outside bounds"
condition (modelled as `none`). -/
structure Dataset where
  dtype : String
  count : Nat
  colormap : Option Colormap
  bounds : BBox
  crs : String
  minzoom : Int
  maxzoom : Int
  info : Info
  tile : Nat → Nat → Nat → Option ImageData
  point : ℚ → ℚ → Option (List Int)

/-- Errors surfaced by the reader layer.  `exception msg` models Python's
bare `raise Exception(msg)` in `MosaicReader.__attrs_post_init__` (the
spec's `ConfigurationError`); `datasetOpenError` models a failure of
`COGReader(path)` (the spec's `DatasetOpenError`); `invalidBandName` is
`rio_tiler.errors.InvalidBandName` (the spec's `UnknownBandError`);
`tileOutsideBounds` is `TileOutsideBoundsError`; `valueError` and
`indexError` are Python's `ValueError` / `IndexError`. -/
inductive RioError where
  | datasetOpenError (path : String)
  | exception (msg : String)
  | invalidBandName (msg : String)
  | tileOutsideBounds
  | valueError
  | indexError
deriving DecidableEq, Repr

/-- Decimal digit list of `n`, most significant digit first — the digits of
Python's `str(n)` for a nonnegative integer (same rendering as `Nat.repr`). -/
def decDigits (n : Nat) : List Char :=
  if _h : n < 10 then [Nat.digitChar n]
  else
    have : n / 10 < n := Nat.div_lt_self (by omega) (by decide)
    decDigits (n / 10) ++ [Nat.digitChar (n % 10)]
termination_by n

/-- Python's `str(n)` for a nonnegative integer `n`. -/
def pyStr (n : Nat) : String := ⟨decDigits n⟩

/-- The synthetic band identifier `f"b{ix + 1}"` for file position `ix`
(`MultiFilesBandsReader.__attrs_post_init__`). -/
def bandName (ix : Nat) : String := "b" ++ pyStr (ix + 1)

/-- The synthetic asset identifier `f"asset{ix + 1}"` for file position `ix`
(`MultiFilesAssetsReader.__attrs_post_init__`). -/
def assetName (ix : Nat) : String := "asset" ++ pyStr (ix + 1)

/-- Insert a key/value pair with Python `dict` semantics: an existing key
keeps its position and has its value overwritten; a new key is appended. -/
def dictInsert (k : String) (v : Dataset) :
    List (String × Dataset) → List (String × Dataset)
  | [] => [(k, v)]
  | (k', v') :: rest =>
    if k' = k then (k, v) :: rest else (k', v') :: dictInsert k v rest

/-- Build a Python `dict` (as an insertion-ordered association list with
distinct keys) from a list of key/value pairs, inserting left to right.
This models the dict comprehension in `MosaicReader.__attrs_post_init__`. -/
def dictOf (l : List (String × Dataset)) : List (String × Dataset) :=
  l.foldl (fun acc kv => dictInsert kv.1 kv.2 acc) []

/-- Open every file of `expansion` in order via the environment `env`
(`env p = none` models `COGReader(p)` raising).  The first failure aborts
with `DatasetOpenError`; on success the opened pairs are returned in order.
This models evaluating `COGReader(src_path)` for each expanded path. -/
def openAll (env : String → Option Dataset) :
    List String → Except RioError (List (String × Dataset))
  | [] => .ok []
  | p :: rest =>
    match env p with
    | none => .error (.datasetOpenError p)
    | some d => (openAll env rest).map (fun ds => (p, d) :: ds)

/-- The state of a constructed `MultiFilesBandsReader`
(`rio_viz/io/reader.py`): the expanded file list, the synthetic band
names, and the spatial attributes read from the first file. -/
structure MultiFilesBandsReader where
  files : List String
  bands : List String
  bounds : BBox
  crs : String
  minzoom : Int
  maxzoom : Int

/-- The state of a constructed `MultiFilesAssetsReader`
(`rio_viz/io/reader.py`). -/
structure MultiFilesAssetsReader where
  files : List String
  assets : List String
  bounds : BBox
  crs : String
  minzoom : Int
  maxzoom : Int

namespace MultiFilesBandsReader

/-- `MultiFilesBandsReader.__attrs_post_init__`: store the expanded file
list, assign band names `b1..bn`, and open only `files[0]` to read the
spatial attributes.  `expansion` is the result of `braceexpand(input)`
(external library; always at least one element for a valid pattern —
an empty list is modelled as Python's `IndexError` on `files[0]`). -/
def attrsPostInit (env : String → Option Dataset) (expansion : List String) :
    Except RioError MultiFilesBandsReader :=
  match expansion.head? with
  | none => .error .indexError
  | some f0 =>
    match env f0 with
    | none => .error (.datasetOpenError f0)
    | some cog =>
      .ok { files := expansion,
            bands := (List.range expansion.length).map bandName,
            bounds := cog.bounds, crs := cog.crs,
            minzoom := cog.minzoom, maxzoom := cog.maxzoom }

/-- `MultiFilesBandsReader._get_band_url`: validate the band name and
return the file locator at the band's index. -/
def getBandUrl (s : MultiFilesBandsReader) (band : String) :
    Except RioError String :=
  if band ∉ s.bands then .error (.invalidBandName (band ++ " is not valid"))
  else
    match s.files.get? (s.bands.indexOf band) with
    | some f => .ok f
    | none => .error .indexError

end MultiFilesBandsReader

namespace MultiFilesAssetsReader

/-- `MultiFilesAssetsReader.__attrs_post_init__`: store the expanded file
list, assign asset names `asset1..assetn`, and open only `files[0]` to
read the spatial attributes. -/
def attrsPostInit (env : String → Option Dataset) (expansion : List String) :
    Except RioError MultiFilesAssetsReader :=
  match expansion.head? with
  | none => .error .indexError
  | some f0 =>
    match env f0 with
    | none => .error (.datasetOpenError f0)
    | some cog =>
      .ok { files := expansion,
            assets := (List.range expansion.length).map assetName,
            bounds := cog.bounds, crs := cog.crs,
            minzoom := cog.minzoom, maxzoom := cog.maxzoom }

/-- `MultiFilesAssetsReader._get_asset_url`: validate the asset name and
return the file locator at the asset's index. -/
def getAssetUrl (s : MultiFilesAssetsReader) (asset : String) :
    Except RioError String :=
  if asset ∉ s.assets then .error (.invalidBandName (asset ++ " is not valid"))
  else
    match s.files.get? (s.assets.indexOf asset) with
    | some f => .ok f
    | none => .error .indexError

end MultiFilesAssetsReader

/-- The member datasets (`self.datasets.values()`) of the dict built from
`opened`, in dict order. -/
def vals (opened : List (String × Dataset)) : List Dataset :=
  (dictOf opened).map (·.2)

/-- The `xs` list of `MosaicReader.__attrs_post_init__`: all left and
right edges of the member datasets' bounds, in dict order. -/
def mosaicXs (opened : List (String × Dataset)) : List ℚ :=
  (vals opened).flatMap (fun d => [d.bounds.left, d.bounds.right])

/-- The `ys` list of `MosaicReader.__attrs_post_init__`: all bottom and
top edges of the member datasets' bounds, in dict order. -/
def mosaicYs (opened : List (String × Dataset)) : List ℚ :=
  (vals opened).flatMap (fun d => [d.bounds.bottom, d.bounds.top])

/-- The state of a constructed `MosaicReader` (`rio_viz/io/mosaic.py`):
the opened datasets keyed by path in dict insertion order, and the
aggregate attributes computed by `__attrs_post_init__`.  `colormap` is
`none` when the attribute was never assigned. -/
structure MosaicReader where
  datasets : List (String × Dataset)
  minzoom : Int
  maxzoom : Int
  colormap : Option Colormap
  bounds : BBox

namespace MosaicReader

/-- `MosaicReader.__attrs_post_init__`: open every expanded path into the
`datasets` dict, aggregate the zoom range, check dtype and band-count
uniformity, pick the first colormap, and compute the union bounds from the
flattened edge coordinates (`mosaicXs` / `mosaicYs`).  `min`/`max` over an
empty list is Python's `ValueError`. -/
def attrsPostInit (env : String → Option Dataset) (expansion : List String) :
    Except RioError MosaicReader :=
  match openAll env expansion with
  | .error e => .error e
  | .ok opened =>
    match ((vals opened).map (·.minzoom)).min?,
        ((vals opened).map (·.maxzoom)).max? with
    | some minz, some maxz =>
      if (((vals opened).map (·.dtype)).dedup).length > 1 then
        .error (.exception "Datasets must be of the same data type.")
      else if (((vals opened).map (·.count)).dedup).length > 1 then
        .error (.exception "Datasets must be have the same number of bands.")
      else
        match (mosaicXs opened).min?, (mosaicYs opened).min?,
            (mosaicXs opened).max?, (mosaicYs opened).max? with
        | some bl, some bb, some br, some bt =>
          .ok { datasets := dictOf opened, minzoom := minz, maxzoom := maxz,
                colormap := ((vals opened).filterMap (·.colormap)).head?,
                bounds := ⟨bl, bb, br, bt⟩ }
        | _, _, _, _ => .error .valueError
    | _, _ => .error .valueError

/-- The dict keys of `self.datasets`, in insertion order. -/
def keys (m : MosaicReader) : List String := m.datasets.map (·.1)

/-- The `_reader` closure inside `MosaicReader.tile`:
`self.datasets[asset].tile(tile_x, tile_y, tile_z)`.  The keys passed in
always come from the dict, so the lookup-miss branch is unreachable; it is
modelled as "no image" (`none`). -/
def readAssetTile (m : MosaicReader) (asset : String) (x y z : Nat) :
    Option ImageData :=
  match m.datasets.lookup asset with
  | some d => d.tile x y z
  | none => none

/-- The `_reader` closure inside `MosaicReader.point`:
`self.datasets[asset].point(lon, lat)`. -/
def readAssetPoint (m : MosaicReader) (asset : String) (lon lat : ℚ) :
    Option (List Int) :=
  match m.datasets.lookup asset with
  | some d => d.point lon lat
  | none => none

end MosaicReader

/-- Modelled from the spec: `rio_tiler.mosaic.mosaic_reader` (external
dependency, §4.3) — "iterates the member files in file order …, attempting
to extract the requested tile from each in turn via the per-file reader,
and returns the first file that produces any valid (non-fully-masked)
pixels for that tile — a first-match mosaic composite, not a blend.  If no
file covers the tile, fails with `TileOutsideBoundsError`."  A per-file
"outside bounds" condition (`none`) is treated as no contribution. -/
def mosaic_reader (assets : List String)
    (reader : String → Option ImageData) : Except RioError ImageData :=
  match assets with
  | [] => .error .tileOutsideBounds
  | a :: rest =>
    match reader a with
    | some img =>
      if img.mask.any (fun b => b) then .ok img else mosaic_reader rest reader
    | none => mosaic_reader rest reader

/-- Modelled from the spec: `rio_tiler.tasks.multi_values` (external
dependency, §4.4) — queries every asset in order; an asset whose reader
raises an allowed exception (`PointOutsideBounds`, modelled as `none`) is
swallowed and contributes nothing; the others are returned as an
insertion-ordered mapping from asset to value. -/
def multi_values (assets : List String)
    (reader : String → Option (List Int)) : List (String × List Int) :=
  assets.filterMap (fun a => (reader a).map (fun v => (a, v)))

/-- Python's `zip(*lists)`: transpose a list of lists, truncated to the
shortest list; `zip()` of no lists is empty. -/
def pyZip (ls : List (List Int)) : List (List Int) :=
  match (ls.map List.length).min? with
  | none => []
  | some m => (List.range m).map (fun i => ls.map (fun l => l.getD i 0))

namespace MosaicReader

/-- `MosaicReader.tile`: iterate the dict keys (reversed when `reverse`)
through `mosaic_reader` with the per-dataset `_reader` closure. -/
def tile (m : MosaicReader) (tile_x tile_y tile_z : Nat)
    (reverse : Bool := false) : Except RioError ImageData :=
  let mosaic_assets := if reverse then m.keys.reverse else m.keys
  mosaic_reader mosaic_assets (fun a => m.readAssetTile a tile_x tile_y tile_z)

/-- `MosaicReader.point`: collect each member's point values via
`multi_values` (files outside bounds swallowed), then return
`[list(r)[0] for r in zip(*values)]` — the first answering file's value at
each band position, truncated to the shortest answer. -/
def point (m : MosaicReader) (lon lat : ℚ) (reverse : Bool := false) :
    List Int :=
  let mosaic_assets := if reverse then m.keys.reverse else m.keys
  let vals :=
    (multi_values mosaic_assets (fun a => m.readAssetPoint a lon lat)).map (·.2)
  (pyZip vals).map (fun r => r.headD 0)

/-- Modelled from the spec: `BaseReader.spatial_info` (external dependency)
— the dataset's `bounds`, `center` (midpoint of the bounds at `minzoom`),
`minzoom` and `maxzoom`. -/
def center (m : MosaicReader) : ℚ × ℚ × Int :=
  ((m.bounds.left + m.bounds.right) / 2,
   (m.bounds.bottom + m.bounds.top) / 2, m.minzoom)

/-- `MosaicReader.info`: take the first dict entry's `info()`, drop its
`bounds`, `center`, `minzoom`, `maxzoom`, `width`, `height` and
`overviews` fields, and rebuild an `Info` from the remaining metadata plus
the reader's own `spatial_info`; the dropped size fields revert to the
model defaults (`none`).  An empty dict is Python's `IndexError`
(`none`). -/
def info (m : MosaicReader) : Option Info :=
  match m.datasets.head? with
  | none => none
  | some (_, d) =>
    some { bounds := m.bounds, center := m.center,
           minzoom := m.minzoom, maxzoom := m.maxzoom,
           band_metadata := d.info.band_metadata,
           band_descriptions := d.info.band_descriptions,
           dtype := d.info.dtype,
           nodata_type := d.info.nodata_type,
           colorinterp := d.info.colorinterp,
           width := none, height := none, overviews := none }

end MosaicReader

/-- The contribution an asset makes to `mosaic_reader`: its tile image
when the read succeeds and has at least one valid pixel, nothing
otherwise. -/
def contribution (reader : String → Option ImageData) (a : String) :
    Option ImageData :=
  match reader a with
  | some img => if img.mask.any (fun b => b) then some img else none
  | none => none

/-- A total opening environment: every path opens to a dataset. -/
def envOf (D : String → Dataset) : String → Option Dataset :=
  fun p => some (D p)

/-! Concrete fixtures used to instantiate the theorems below on closed
inputs. -/

/-- A fixed metadata record shared by the test datasets. -/
def infoT : Info :=
  { bounds := ⟨0, 0, 10, 10⟩, center := (5, 5, 1), minzoom := 1, maxzoom := 5,
    band_metadata := [("1", "")], band_descriptions := [("1", "x")],
    dtype := "uint8", nodata_type := "None", colorinterp := ["gray"],
    width := some 256, height := some 256, overviews := some [2] }

/-- A tile image with valid pixels. -/
def imgA : ImageData := { data := [7, 7], mask := [true, true] }

/-- Test dataset A: covers every tile and point (sample `[10]`). -/
def dsA : Dataset :=
  { dtype := "uint8", count := 1, colormap := none, bounds := ⟨0, 0, 10, 10⟩,
    crs := "EPSG:4326", minzoom := 1, maxzoom := 5, info := infoT,
    tile := fun _ _ _ => some imgA, point := fun _ _ => some [10] }

/-- Test dataset B: covers no tile and no point. -/
def dsB : Dataset :=
  { dtype := "uint8", count := 1, colormap := none, bounds := ⟨2, 2, 12, 12⟩,
    crs := "EPSG:4326", minzoom := 2, maxzoom := 6, info := infoT,
    tile := fun _ _ _ => none, point := fun _ _ => none }

/-- Test dataset with a different pixel data type than `dsA`. -/
def dsC : Dataset :=
  { dsB with dtype := "uint16" }

/-- Test dataset with a different band count than `dsA`. -/
def dsD : Dataset :=
  { dsB with count := 2 }

/-- Test dataset covering every point with sample `[20]`. -/
def dsP2 : Dataset :=
  { dsA with point := fun _ _ => some [20] }

/-- Test dataset covering every point with sample `[30]`. -/
def dsP3 : Dataset :=
  { dsA with point := fun _ _ => some [30] }

/-- Witness environment: two openable paths. -/
def envW : String → Option Dataset :=
  fun p =>
    if p = "a.tif" then some dsA else if p = "b.tif" then some dsB else none

/-- Witness environment: `b.tif` cannot be opened. -/
def envBad : String → Option Dataset :=
  fun p => if p = "a.tif" then some dsA else none

/-- Witness environment: three openable paths with point samples
`[10]`, `[20]`, `[30]`. -/
def envP : String → Option Dataset :=
  fun p =>
    if p = "p1.tif" then some dsA
    else if p = "p2.tif" then some dsP2
    else if p = "p3.tif" then some dsP3 else none

/-- A total dataset assignment for the aggregate witnesses. -/
def DW : String → Dataset :=
  fun p => if p = "a.tif" then dsA else dsB

/-- A total dataset assignment with two pixel data types. -/
def DW2 : String → Dataset :=
  fun p => if p = "a.tif" then dsA else dsC

/-- A total dataset assignment with two band counts. -/
def DW3 : String → Dataset :=
  fun p => if p = "a.tif" then dsA else dsD

/-- The mosaic state built from `envW` over `["b.tif", "a.tif"]`. -/
def mW : MosaicReader :=
  { datasets := [("b.tif", dsB), ("a.tif", dsA)], minzoom := 1, maxzoom := 6,
    colormap := none, bounds := ⟨0, 0, 12, 12⟩ }

/-- The mosaic state built from `envP` over the three point files. -/
def mP : MosaicReader :=
  { datasets := [("p1.tif", dsA), ("p2.tif", dsP2), ("p3.tif", dsP3)],
    minzoom := 1, maxzoom := 5, colormap := none, bounds := ⟨0, 0, 10, 10⟩ }

/-- The band reader state built from `envW` over `["a.tif", "b.tif"]`. -/
def sBW : MultiFilesBandsReader :=
  { files := ["a.tif", "b.tif"], bands := (List.range 2).map bandName,
    bounds := ⟨0, 0, 10, 10⟩, crs := "EPSG:4326", minzoom := 1, maxzoom := 5 }

/-- The asset reader state built from `envW` over `["a.tif", "b.tif"]`. -/
def sAW : MultiFilesAssetsReader :=
  { files := ["a.tif", "b.tif"], assets := (List.range 2).map assetName,
    bounds := ⟨0, 0, 10, 10⟩, crs := "EPSG:4326", minzoom := 1, maxzoom := 5 }

/-- The mosaic state built from `envOf DW` over `["a.tif", "b.tif"]`. -/
def mWD : MosaicReader :=
  { datasets := [("a.tif", dsA), ("b.tif", dsB)], minzoom := 1, maxzoom := 6,
    colormap := none, bounds := ⟨0, 0, 12, 12⟩ }

/-- The mosaic state built from `envW` over the duplicated expansion
`["a.tif", "a.tif"]`: one dict entry. -/
def mDup : MosaicReader :=
  { datasets := [("a.tif", dsA)], minzoom := 1, maxzoom := 5,
    colormap := none, bounds := ⟨0, 0, 10, 10⟩ }

/-- The band reader state over the duplicated expansion. -/
def sBdup : MultiFilesBandsReader :=
  { files := ["a.tif", "a.tif"], bands := (List.range 2).map bandName,
    bounds := ⟨0, 0, 10, 10⟩, crs := "EPSG:4326", minzoom := 1, maxzoom := 5 }

/-- The asset reader state over the duplicated expansion. -/
def sAdup : MultiFilesAssetsReader :=
  { files := ["a.tif", "a.tif"], assets := (List.range 2).map assetName,
    bounds := ⟨0, 0, 10, 10⟩, crs := "EPSG:4326", minzoom := 1, maxzoom := 5 }

/-! Helper lemmas: `min?`/`max?` over linear orders, dict semantics,
and `openAll` over a total environment. -/

theorem digitChar_inj_lt : ∀ a < 10, ∀ b < 10,
    Nat.digitChar a = Nat.digitChar b → a = b := by decide

theorem decDigits_lt (n : Nat) (h : n < 10) : decDigits n = [Nat.digitChar n] := by
  unfold decDigits
  simp [h]

theorem decDigits_ge (n : Nat) (h : ¬n < 10) :
    decDigits n = decDigits (n / 10) ++ [Nat.digitChar (n % 10)] := by
  conv_lhs => rw [decDigits]
  simp [h]

theorem decDigits_ne_nil (n : Nat) : decDigits n ≠ [] := by
  by_cases h : n < 10
  · rw [decDigits_lt n h]
    simp
  · rw [decDigits_ge n h]
    simp

theorem decDigits_inj : ∀ m n : Nat, decDigits m = decDigits n → m = n := by
  intro m
  induction m using Nat.strong_induction_on with
  | _ m ih =>
    intro n h
    by_cases hm : m < 10 <;> by_cases hn : n < 10
    · rw [decDigits_lt m hm, decDigits_lt n hn] at h
      exact digitChar_inj_lt m hm n hn (List.singleton_injective h)
    · rw [decDigits_lt m hm, decDigits_ge n hn] at h
      have hlen := congrArg List.length h
      rw [List.length_append] at hlen
      simp only [List.length_singleton] at hlen
      have : (decDigits (n / 10)).length = 0 := by omega
      exact absurd (List.length_eq_zero.mp this) (decDigits_ne_nil (n / 10))
    · rw [decDigits_ge m hm, decDigits_lt n hn] at h
      have hlen := congrArg List.length h
      rw [List.length_append] at hlen
      simp only [List.length_singleton] at hlen
      have : (decDigits (m / 10)).length = 0 := by omega
      exact absurd (List.length_eq_zero.mp this) (decDigits_ne_nil (m / 10))
    · rw [decDigits_ge m hm, decDigits_ge n hn] at h
      obtain ⟨hpre, hlast⟩ := List.append_inj' h (by simp)
      have hdiv : m / 10 = n / 10 :=
        ih (m / 10) (Nat.div_lt_self (by omega) (by decide)) (n / 10) hpre
      have hmod : m % 10 = n % 10 :=
        digitChar_inj_lt (m % 10) (Nat.mod_lt m (by omega)) (n % 10)
          (Nat.mod_lt n (by omega)) (List.singleton_injective hlast)
      omega

theorem pyStr_inj : Function.Injective pyStr := by
  intro m n h
  exact decDigits_inj m n (congrArg String.data h)

theorem bandName_inj : Function.Injective bandName := by
  intro i j h
  have hd : ("b" ++ pyStr (i + 1)).data = ("b" ++ pyStr (j + 1)).data :=
    congrArg String.data h
  simp only [String.data_append] at hd
  have := List.append_cancel_left hd
  have := pyStr_inj (String.ext this)
  omega

theorem assetName_inj : Function.Injective assetName := by
  intro i j h
  have hd : ("asset" ++ pyStr (i + 1)).data = ("asset" ++ pyStr (j + 1)).data :=
    congrArg String.data h
  simp only [String.data_append] at hd
  have := List.append_cancel_left hd
  have := pyStr_inj (String.ext this)
  omega

theorem min?_eq_some_iff_lin {α : Type} [LinearOrder α] {l : List α} {a : α} :
    l.min? = some a ↔ a ∈ l ∧ ∀ b ∈ l, a ≤ b := by
  have h : Std.Antisymm (α := α) (· ≤ ·) := ⟨le_antisymm⟩
  exact List.min?_eq_some_iff le_refl min_choice (fun _ _ _ => le_min_iff)

theorem max?_eq_some_iff_lin {α : Type} [LinearOrder α] {l : List α} {a : α} :
    l.max? = some a ↔ a ∈ l ∧ ∀ b ∈ l, b ≤ a := by
  have h : Std.Antisymm (α := α) (· ≤ ·) := ⟨le_antisymm⟩
  exact List.max?_eq_some_iff le_refl max_choice (fun _ _ _ => max_le_iff)

theorem min?_congr_mem {α : Type} [LinearOrder α] {l₁ l₂ : List α}
    (h : ∀ a, a ∈ l₁ ↔ a ∈ l₂) : l₁.min? = l₂.min? := by
  cases h₁ : l₁.min? with
  | none =>
    have he : l₁ = [] := List.min?_eq_none_iff.mp h₁
    subst he
    have h2 : l₂ = [] := by
      apply List.eq_nil_iff_forall_not_mem.mpr
      intro a ha
      exact absurd ((h a).mpr ha) (List.not_mem_nil a)
    rw [h2]
    rfl
  | some a =>
    obtain ⟨hm, hle⟩ := min?_eq_some_iff_lin.mp h₁
    exact (min?_eq_some_iff_lin.mpr
      ⟨(h a).mp hm, fun b hb => hle b ((h b).mpr hb)⟩).symm

theorem max?_congr_mem {α : Type} [LinearOrder α] {l₁ l₂ : List α}
    (h : ∀ a, a ∈ l₁ ↔ a ∈ l₂) : l₁.max? = l₂.max? := by
  cases h₁ : l₁.max? with
  | none =>
    have he : l₁ = [] := List.max?_eq_none_iff.mp h₁
    subst he
    have h2 : l₂ = [] := by
      apply List.eq_nil_iff_forall_not_mem.mpr
      intro a ha
      exact absurd ((h a).mpr ha) (List.not_mem_nil a)
    rw [h2]
    rfl
  | some a =>
    obtain ⟨hm, hle⟩ := max?_eq_some_iff_lin.mp h₁
    exact (max?_eq_some_iff_lin.mpr
      ⟨(h a).mp hm, fun b hb => hle b ((h b).mpr hb)⟩).symm

theorem dictInsert_ne_nil (k : String) (v : Dataset)
    (l : List (String × Dataset)) : dictInsert k v l ≠ [] := by
  cases l with
  | nil => simp [dictInsert]
  | cons hd tl =>
    obtain ⟨k', v'⟩ := hd
    rw [dictInsert]
    split <;> simp

theorem dictInsert_mem {k : String} {v : Dataset} {l : List (String × Dataset)}
    {x : String × Dataset} (hx : x ∈ dictInsert k v l) : x = (k, v) ∨ x ∈ l := by
  induction l with
  | nil => simpa [dictInsert] using hx
  | cons hd tl ih =>
    obtain ⟨k', v'⟩ := hd
    rw [dictInsert] at hx
    by_cases hk : k' = k
    · rw [if_pos hk] at hx
      rcases List.mem_cons.mp hx with h | h
      · exact .inl h
      · exact .inr (List.mem_cons_of_mem _ h)
    · rw [if_neg hk] at hx
      rcases List.mem_cons.mp hx with h | h
      · exact .inr (h ▸ List.mem_cons_self _ _)
      · rcases ih h with h' | h'
        · exact .inl h'
        · exact .inr (List.mem_cons_of_mem _ h')

theorem dictInsert_keys_mem {k k' : String} {v : Dataset}
    {l : List (String × Dataset)} :
    k' ∈ (dictInsert k v l).map (·.1) ↔ k' = k ∨ k' ∈ l.map (·.1) := by
  induction l with
  | nil => simp [dictInsert]
  | cons hd tl ih =>
    obtain ⟨k₀, v₀⟩ := hd
    rw [dictInsert]
    by_cases hk : k₀ = k
    · subst hk
      simp
    · rw [if_neg hk]
      simp only [List.map_cons, List.mem_cons] at ih ⊢
      tauto

theorem dictInsert_keys_nodup {k : String} {v : Dataset}
    {l : List (String × Dataset)} (h : (l.map (·.1)).Nodup) :
    ((dictInsert k v l).map (·.1)).Nodup := by
  induction l with
  | nil => simp [dictInsert]
  | cons hd tl ih =>
    obtain ⟨k₀, v₀⟩ := hd
    rw [dictInsert]
    simp only [List.map_cons, List.nodup_cons] at h
    by_cases hk : k₀ = k
    · subst hk
      simpa using h
    · rw [if_neg hk]
      simp only [List.map_cons, List.nodup_cons]
      refine ⟨fun hc => ?_, ih h.2⟩
      rcases dictInsert_keys_mem.mp hc with h' | h'
      · exact hk h'
      · exact h.1 h'

theorem dictInsert_head_key {l : List (String × Dataset)} (hl : l ≠ [])
    (k : String) (v : Dataset) :
    ((dictInsert k v l).head?).map (·.1) = (l.head?).map (·.1) := by
  cases l with
  | nil => exact absurd rfl hl
  | cons hd tl =>
    obtain ⟨k₀, v₀⟩ := hd
    rw [dictInsert]
    by_cases hk : k₀ = k
    · subst hk
      simp
    · rw [if_neg hk]
      simp

/-- The accumulator-passing form of `dictOf`. -/
theorem dictOf_eq_foldl (l : List (String × Dataset)) :
    dictOf l = l.foldl (fun acc kv => dictInsert kv.1 kv.2 acc) [] := rfl

theorem dictFold_mem : ∀ (l acc : List (String × Dataset)) (x : String × Dataset),
    x ∈ l.foldl (fun acc kv => dictInsert kv.1 kv.2 acc) acc → x ∈ acc ∨ x ∈ l := by
  intro l
  induction l with
  | nil =>
    intro acc x hx
    exact .inl hx
  | cons hd tl ih =>
    intro acc x hx
    rw [List.foldl_cons] at hx
    rcases ih _ x hx with h | h
    · rcases dictInsert_mem h with h' | h'
      · exact .inr (h' ▸ List.mem_cons_self _ _)
      · exact .inl h'
    · exact .inr (List.mem_cons_of_mem _ h)

theorem dictOf_mem {l : List (String × Dataset)} {x : String × Dataset}
    (hx : x ∈ dictOf l) : x ∈ l := by
  rcases dictFold_mem l [] x hx with h | h
  · exact absurd h (List.not_mem_nil x)
  · exact h

theorem dictFold_keys_mem : ∀ (l acc : List (String × Dataset)) (k : String),
    k ∈ ((l.foldl (fun acc kv => dictInsert kv.1 kv.2 acc) acc).map (·.1)) ↔
      k ∈ acc.map (·.1) ∨ k ∈ l.map (·.1) := by
  intro l
  induction l with
  | nil =>
    intro acc k
    simp
  | cons hd tl ih =>
    intro acc k
    rw [List.foldl_cons, ih]
    rw [dictInsert_keys_mem]
    simp only [List.map_cons, List.mem_cons]
    tauto

theorem dictOf_keys_mem {l : List (String × Dataset)} {k : String} :
    k ∈ (dictOf l).map (·.1) ↔ k ∈ l.map (·.1) := by
  rw [dictOf_eq_foldl, dictFold_keys_mem]
  simp

theorem dictFold_keys_nodup : ∀ (l acc : List (String × Dataset)),
    (acc.map (·.1)).Nodup →
    ((l.foldl (fun acc kv => dictInsert kv.1 kv.2 acc) acc).map (·.1)).Nodup := by
  intro l
  induction l with
  | nil =>
    intro acc h
    exact h
  | cons hd tl ih =>
    intro acc h
    rw [List.foldl_cons]
    exact ih _ (dictInsert_keys_nodup h)

theorem dictOf_keys_nodup (l : List (String × Dataset)) :
    ((dictOf l).map (·.1)).Nodup := by
  rw [dictOf_eq_foldl]
  exact dictFold_keys_nodup l [] (by simp)

theorem dictFold_ne_nil : ∀ (l acc : List (String × Dataset)), acc ≠ [] →
    l.foldl (fun acc kv => dictInsert kv.1 kv.2 acc) acc ≠ [] := by
  intro l
  induction l with
  | nil =>
    intro acc h
    exact h
  | cons hd tl ih =>
    intro acc h
    rw [List.foldl_cons]
    exact ih _ (dictInsert_ne_nil _ _ _)

theorem dictFold_head_key : ∀ (l acc : List (String × Dataset)), acc ≠ [] →
    ((l.foldl (fun acc kv => dictInsert kv.1 kv.2 acc) acc).head?).map (·.1) =
      (acc.head?).map (·.1) := by
  intro l
  induction l with
  | nil =>
    intro acc h
    rfl
  | cons hd tl ih =>
    intro acc h
    rw [List.foldl_cons, ih _ (dictInsert_ne_nil _ _ _),
      dictInsert_head_key h]

theorem dictOf_ne_nil {l : List (String × Dataset)} (h : l ≠ []) :
    dictOf l ≠ [] := by
  cases l with
  | nil => exact absurd rfl h
  | cons hd tl =>
    rw [dictOf_eq_foldl, List.foldl_cons]
    exact dictFold_ne_nil tl _ (dictInsert_ne_nil _ _ _)

theorem dictOf_head_key {hd : String × Dataset} {tl : List (String × Dataset)} :
    ((dictOf (hd :: tl)).head?).map (·.1) = some hd.1 := by
  rw [dictOf_eq_foldl, List.foldl_cons,
    dictFold_head_key tl _ (dictInsert_ne_nil _ _ _)]
  obtain ⟨k, v⟩ := hd
  simp [dictInsert]

theorem openAll_envOf (D : String → Dataset) :
    ∀ ps : List String, openAll (envOf D) ps = .ok (ps.map (fun p => (p, D p))) := by
  intro ps
  induction ps with
  | nil => rfl
  | cons p rest ih =>
    rw [openAll, envOf]
    simp [ih, Except.map]

theorem openAll_error {env : String → Option Dataset} :
    ∀ {ps : List String} {p : String}, p ∈ ps → env p = none →
    ∃ q ∈ ps, openAll env ps = .error (.datasetOpenError q) ∧ env q = none := by
  intro ps
  induction ps with
  | nil =>
    intro p hp _
    exact absurd hp (List.not_mem_nil p)
  | cons q rest ih =>
    intro p hp hnone
    rw [openAll]
    cases hq : env q with
    | none => exact ⟨q, List.mem_cons_self _ _, rfl, hq⟩
    | some d =>
      have hp' : p ∈ rest := by
        rcases List.mem_cons.mp hp with h | h
        · exact absurd hq (by rw [h] at hnone; rw [hnone]; simp)
        · exact h
      obtain ⟨r, hr, herr, hropen⟩ := ih hp' hnone
      refine ⟨r, List.mem_cons_of_mem _ hr, ?_, hropen⟩
      rw [herr]
      rfl

/-- Values of the dict built from a total environment: exactly the images
of the expansion's paths. -/
theorem dictOf_values_mem {D : String → Dataset} {ps : List String} {d : Dataset} :
    d ∈ (dictOf (ps.map (fun p => (p, D p)))).map (·.2) ↔ ∃ p ∈ ps, D p = d := by
  constructor
  · intro hd
    obtain ⟨x, hx, hxd⟩ := List.mem_map.mp hd
    have hxl := dictOf_mem hx
    obtain ⟨p, hp, hpx⟩ := List.mem_map.mp hxl
    exact ⟨p, hp, by rw [← hxd, ← hpx]⟩
  · intro ⟨p, hp, hpd⟩
    have hk : p ∈ (dictOf (ps.map (fun p => (p, D p)))).map (·.1) := by
      rw [dictOf_keys_mem]
      simp only [List.map_map]
      simpa using hp
    obtain ⟨x, hx, hxk⟩ := List.mem_map.mp hk
    have hxl := dictOf_mem hx
    obtain ⟨q, _, hqx⟩ := List.mem_map.mp hxl
    have hx2 : x.2 = D x.1 := by rw [← hqx]
    refine List.mem_map.mpr ⟨x, hx, ?_⟩
    rw [hx2, hxk, hpd]

theorem lookup_eq_of_mem {l : List (String × Dataset)} {k : String} {d : Dataset}
    (hnd : (l.map (·.1)).Nodup) (hmem : (k, d) ∈ l) : l.lookup k = some d := by
  induction l with
  | nil => exact absurd hmem (List.not_mem_nil _)
  | cons hd tl ih =>
    obtain ⟨k₀, v₀⟩ := hd
    simp only [List.map_cons, List.nodup_cons] at hnd
    rcases List.mem_cons.mp hmem with h | h
    · obtain ⟨h1, h2⟩ := Prod.mk.injEq .. ▸ h
      subst h1
      subst h2
      simp [List.lookup_cons]
    · have hk : k ∈ tl.map (·.1) := List.mem_map.mpr ⟨(k, d), h, rfl⟩
      have hne : (k == k₀) = false := by
        refine beq_false_of_ne (fun he => ?_)
        exact hnd.1 (he ▸ hk)
      rw [List.lookup_cons, hne]
      exact ih hnd.2 h

theorem mosaic_reader_eq_findSome (assets : List String)
    (reader : String → Option ImageData) :
    mosaic_reader assets reader =
      match assets.findSome? (contribution reader) with
      | some img => .ok img
      | none => .error .tileOutsideBounds := by
  induction assets with
  | nil => rfl
  | cons a rest ih =>
    rw [mosaic_reader, List.findSome?_cons]
    cases h : reader a with
    | none => simp only [contribution, h, ih]
    | some img =>
      by_cases hm : img.mask.any (fun b => b) = true
      · simp [contribution, h, hm]
      · simp [contribution, h, hm, ih]

theorem mosaic_reader_none {assets : List String}
    {reader : String → Option ImageData}
    (h : ∀ a ∈ assets, contribution reader a = none) :
    mosaic_reader assets reader = .error .tileOutsideBounds := by
  rw [mosaic_reader_eq_findSome, List.findSome?_eq_none_iff.mpr h]

theorem mosaic_reader_first {assets : List String}
    {reader : String → Option ImageData} {pre : List String} {a : String}
    {post : List String} {img : ImageData}
    (hsplit : assets = pre ++ a :: post)
    (ha : contribution reader a = some img)
    (hpre : ∀ b ∈ pre, contribution reader b = none) :
    mosaic_reader assets reader = .ok img := by
  subst hsplit
  rw [mosaic_reader_eq_findSome, List.findSome?_append,
    List.findSome?_eq_none_iff.mpr hpre, Option.none_or, List.findSome?_cons, ha]

theorem mosaic_reader_unique {assets : List String}
    {reader : String → Option ImageData} {a : String} {img : ImageData}
    (hnd : assets.Nodup) (hmem : a ∈ assets)
    (ha : contribution reader a = some img)
    (hother : ∀ b ∈ assets, b ≠ a → contribution reader b = none) :
    mosaic_reader assets reader = .ok img := by
  obtain ⟨pre, post, rfl⟩ := List.append_of_mem hmem
  have hdisj := List.disjoint_of_nodup_append hnd
  have hnotpre : a ∉ pre := fun hc => hdisj hc (List.mem_cons_self _ _)
  exact mosaic_reader_first rfl ha
    (fun b hb => hother b (List.mem_append_left _ hb)
      (fun he => hnotpre (he ▸ hb)))

theorem mosaicInit_datasets {env : String → Option Dataset}
    {expansion : List String} {m : MosaicReader}
    (h : MosaicReader.attrsPostInit env expansion = .ok m) :
    ∃ opened, openAll env expansion = .ok opened ∧ m.datasets = dictOf opened := by
  rw [MosaicReader.attrsPostInit] at h
  cases ho : openAll env expansion with
  | error e =>
    rw [ho] at h
    exact absurd h (by simp)
  | ok opened =>
    rw [ho] at h
    refine ⟨opened, rfl, ?_⟩
    split at h
    · rename_i heq
      exact absurd heq (by simp)
    · rename_i opened' heq
      obtain rfl : opened' = opened := by
        injection heq with h'
        exact h'.symm
      split at h
      · split at h
        · exact absurd h (by simp)
        · split at h
          · exact absurd h (by simp)
          · split at h
            · cases h
              rfl
            · exact absurd h (by simp)
      · exact absurd h (by simp)

theorem keys_nodup_of_init {env : String → Option Dataset}
    {expansion : List String} {m : MosaicReader}
    (h : MosaicReader.attrsPostInit env expansion = .ok m) : m.keys.Nodup := by
  obtain ⟨opened, _, hd⟩ := mosaicInit_datasets h
  rw [MosaicReader.keys, hd]
  exact dictOf_keys_nodup opened

/-- **C1**: for the mosaic presentation, `readTile(x, y, z, reverseOrder)`
iterates the member files in construction order (reversed when
`reverseOrder` is true), attempts the tile extraction on each in turn, and
returns the result of the first file that produces any valid
(non-fully-masked) pixels for that tile; if no member file covers the
tile it fails with `TileOutsideBoundsError`.  In particular, when exactly
one member file covers a tile (produces valid pixels, the others raising
"outside bounds"), the returned pixels are that file's pixels regardless
of its position in the file order. -/
theorem C1_readTile_first_match
    (env : String → Option Dataset) (expansion : List String) (m : MosaicReader)
    (x y z : Nat) (reverse : Bool) (order : List String)
    (rd : String → Option ImageData)
    (hm : MosaicReader.attrsPostInit env expansion = .ok m)
    (horder : order = if reverse then m.keys.reverse else m.keys)
    (hrd : rd = fun a => m.readAssetTile a x y z) :
    ((∀ a ∈ order, contribution rd a = none) →
        m.tile x y z reverse = .error .tileOutsideBounds) ∧
    (∀ pre a post img, order = pre ++ a :: post →
        contribution rd a = some img →
        (∀ b ∈ pre, contribution rd b = none) →
        m.tile x y z reverse = .ok img) ∧
    (∀ k d img, (k, d) ∈ m.datasets → d.tile x y z = some img →
        img.mask.any (fun b => b) = true →
        (∀ k' d', (k', d') ∈ m.datasets → k' ≠ k → d'.tile x y z = none) →
        m.tile x y z reverse = .ok img) := by
  have hnd : m.keys.Nodup := keys_nodup_of_init hm
  have htile : m.tile x y z reverse = mosaic_reader order rd := by
    rw [MosaicReader.tile, horder, hrd]
  refine ⟨?_, ?_, ?_⟩
  · intro hnone
    rw [htile]
    exact mosaic_reader_none hnone
  · intro pre a post img hsplit ha hpre
    rw [htile]
    exact mosaic_reader_first hsplit ha hpre
  · intro k d img hmem htd hmask hother
    rw [htile]
    have hkmem : k ∈ m.keys := List.mem_map.mpr ⟨(k, d), hmem, rfl⟩
    have hordnd : order.Nodup := by
      rw [horder]
      cases reverse
      · exact hnd
      · exact List.nodup_reverse.mpr hnd
    have hordmem : ∀ b, b ∈ order ↔ b ∈ m.keys := by
      intro b
      rw [horder]
      cases reverse
      · simp
      · simp
    have hrdk : rd k = some img := by
      rw [hrd]
      show m.readAssetTile k x y z = some img
      simp only [MosaicReader.readAssetTile, lookup_eq_of_mem hnd hmem]
      exact htd
    have hck : contribution rd k = some img := by
      simp only [contribution, hrdk, hmask, if_true]
    refine mosaic_reader_unique hordnd ((hordmem k).mpr hkmem) hck ?_
    intro b hb hbk
    obtain ⟨pr, hmem', hk'⟩ := List.mem_map.mp ((hordmem b).mp hb)
    obtain ⟨k1, d'⟩ := pr
    have hkb : k1 = b := hk'
    subst hkb
    have hnone : d'.tile x y z = none := hother k1 d' hmem' hbk
    have hnoneRA : m.readAssetTile k1 x y z = none := by
      simp only [MosaicReader.readAssetTile, lookup_eq_of_mem hnd hmem']
      exact hnone
    rw [hrd]
    show contribution (fun a => m.readAssetTile a x y z) k1 = none
    simp only [contribution, hnoneRA]

/-- Witness for C1: a two-file mosaic `["b.tif", "a.tif"]` where only the
second file covers tile `(0,0,0)`; `tile` returns that file's pixels. -/
theorem C1_readTile_first_match_witness :
    MosaicReader.attrsPostInit envW ["b.tif", "a.tif"] = .ok mW ∧
    mW.tile 0 0 0 false = .ok imgA := by
  have hm : MosaicReader.attrsPostInit envW ["b.tif", "a.tif"] = .ok mW := by
    rfl
  refine ⟨hm, ?_⟩
  have h := C1_readTile_first_match envW ["b.tif", "a.tif"] mW 0 0 0 false
    mW.keys (fun a => mW.readAssetTile a 0 0 0) hm rfl rfl
  refine h.2.2 "a.tif" dsA imgA ?_ rfl rfl ?_
  · simp [mW]
  · intro k' d' hmem hne
    simp only [mW, List.mem_cons, List.not_mem_nil, or_false] at hmem
    rcases hmem with h' | h'
    · obtain ⟨rfl, rfl⟩ := Prod.mk.injEq .. ▸ h'
      rfl
    · obtain ⟨rfl, rfl⟩ := Prod.mk.injEq .. ▸ h'
      exact absurd rfl hne

theorem multi_values_congr {assets : List String}
    {f g : String → Option (List Int)} (h : ∀ a ∈ assets, f a = g a) :
    multi_values assets f = multi_values assets g := by
  rw [multi_values, multi_values]
  induction assets with
  | nil => rfl
  | cons a rest ih =>
    rw [List.filterMap_cons, List.filterMap_cons,
      h a (List.mem_cons_self _ _), ih (fun b hb => h b (List.mem_cons_of_mem _ hb))]

theorem multi_values_lookup (lon lat : ℚ) :
    ∀ (l : List (String × Dataset)), ((l.map (·.1)).Nodup) →
    multi_values (l.map (·.1))
        (fun a =>
          match l.lookup a with
          | some d => d.point lon lat
          | none => none) =
      l.filterMap (fun kd => (kd.2.point lon lat).map (fun v => (kd.1, v))) := by
  intro l
  induction l with
  | nil =>
    intro _
    rfl
  | cons hd tl ih =>
    intro hnd
    obtain ⟨k, d⟩ := hd
    simp only [List.map_cons, List.nodup_cons] at hnd
    rw [List.map_cons, multi_values, List.filterMap_cons, List.filterMap_cons]
    have hk : List.lookup k ((k, d) :: tl) = some d := by
      simp [List.lookup_cons]
    have hcong : ∀ a ∈ tl.map (·.1),
        (fun a =>
          match List.lookup a ((k, d) :: tl) with
          | some d => d.point lon lat
          | none => none) a =
        (fun a =>
          match tl.lookup a with
          | some d => d.point lon lat
          | none => none) a := by
      intro a ha
      have hne : (a == k) = false := by
        refine beq_false_of_ne (fun he => ?_)
        exact hnd.1 (he ▸ ha)
      simp only [List.lookup_cons, hne]
    have htl := (multi_values_congr hcong).trans (ih hnd.2)
    rw [multi_values] at htl
    rw [hk]
    rw [show (match some d with
      | some d => d.point lon lat
      | none => (none : Option (List Int))) = d.point lon lat from rfl]
    cases hp : d.point lon lat with
    | none =>
      simp only [Option.map_none']
      exact htl
    | some w =>
      simp only [Option.map_some']
      rw [htl]

theorem filterMap_points_all_some (lon lat : ℚ) :
    ∀ (l : List (String × Dataset)) (ws : List (List Int)),
    l.map (fun kd => kd.2.point lon lat) = ws.map some →
    (l.filterMap (fun kd => (kd.2.point lon lat).map (fun v => (kd.1, v)))).map (·.2)
      = ws := by
  intro l
  induction l with
  | nil =>
    intro ws h
    cases ws with
    | nil => rfl
    | cons w ws' => simp at h
  | cons kd tl ih =>
    intro ws h
    cases ws with
    | nil => simp at h
    | cons w ws' =>
      simp only [List.map_cons, List.cons.injEq] at h
      obtain ⟨h1, h2⟩ := h
      rw [List.filterMap_cons, h1]
      simp only [Option.map_some']
      rw [List.map_cons, ih ws' h2]

theorem range_map_getD (l : List Int) :
    (List.range l.length).map (fun i => l.getD i 0) = l := by
  induction l with
  | nil => rfl
  | cons a t ih =>
    rw [List.length_cons, List.range_succ_eq_map, List.map_cons, List.map_map]
    have hc : ((fun i => (a :: t).getD i 0) ∘ (· + 1)) = (fun i => t.getD i 0) := by
      funext i
      simp
    rw [hc, ih]
    simp

theorem pyZip_map_headD {w₀ : List Int} {rest : List (List Int)}
    (hlen : ∀ v ∈ w₀ :: rest, v.length = w₀.length) :
    ((pyZip (w₀ :: rest)).map (fun r => r.headD 0)) = w₀ := by
  have hmin : (((w₀ :: rest).map List.length)).min? = some w₀.length := by
    rw [min?_eq_some_iff_lin]
    constructor
    · exact List.mem_map.mpr ⟨w₀, List.mem_cons_self _ _, rfl⟩
    · intro b hb
      obtain ⟨v, hv, rfl⟩ := List.mem_map.mp hb
      rw [hlen v hv]
  rw [pyZip]
  rw [hmin]
  rw [List.map_map]
  have hc : ((fun r => List.headD r 0) ∘
      fun i => (w₀ :: rest).map (fun l => l.getD i 0)) = (fun i => w₀.getD i 0) := by
    funext i
    simp
  rw [hc, range_map_getD]

/-- **C2 (amended)**: for the mosaic presentation, when every member file
covers the queried point, `readPoint(lon, lat)` returns one value per band
position, each taken from the **first** member file's sample (Python's
`[list(r)[0] for r in zip(*values)]`): with member samples of equal band
count, the result equals the first member's whole sample list — not one
value per member file. -/
theorem C2_readPoint_first_file_per_band
    (env : String → Option Dataset) (expansion : List String) (m : MosaicReader)
    (lon lat : ℚ) (w₀ : List Int) (rest : List (List Int))
    (hm : MosaicReader.attrsPostInit env expansion = .ok m)
    (hv : m.datasets.map (fun kd => kd.2.point lon lat) = (w₀ :: rest).map some)
    (hlen : ∀ v ∈ w₀ :: rest, v.length = w₀.length) :
    m.point lon lat false = w₀ := by
  have hnd : m.keys.Nodup := keys_nodup_of_init hm
  have hnd' : (m.datasets.map (·.1)).Nodup := hnd
  show (pyZip ((multi_values (m.datasets.map (·.1))
      (fun a => m.readAssetPoint a lon lat)).map (·.2))).map
      (fun r => r.headD 0) = w₀
  have hcong : ∀ a ∈ m.datasets.map (·.1),
      m.readAssetPoint a lon lat =
      (fun a =>
        match m.datasets.lookup a with
        | some d => d.point lon lat
        | none => none) a := fun a _ => rfl
  rw [multi_values_congr hcong, multi_values_lookup lon lat m.datasets hnd',
    filterMap_points_all_some lon lat m.datasets (w₀ :: rest) hv]
  exact pyZip_map_headD hlen

/-- Counterexample for C2: three single-band member files with point
samples `[10]`, `[20]`, `[30]`; `readPoint` returns `[10]`, not
`[10, 20, 30]`. -/
theorem C2_readPoint_counterexample :
    MosaicReader.attrsPostInit envP ["p1.tif", "p2.tif", "p3.tif"] = .ok mP ∧
    mP.point 0 0 false = [10] ∧ mP.point 0 0 false ≠ [10, 20, 30] := by
  refine ⟨by rfl, by rfl, by decide⟩

/-- Witness for C2 (amended) at the three-file point fixture. -/
theorem C2_readPoint_first_file_per_band_witness :
    MosaicReader.attrsPostInit envP ["p1.tif", "p2.tif", "p3.tif"] = .ok mP ∧
    mP.point 0 0 false = [10] ∧ (10 : Int) ∈ ([10] : List Int) := by
  have hm : MosaicReader.attrsPostInit envP ["p1.tif", "p2.tif", "p3.tif"]
      = .ok mP := by rfl
  refine ⟨hm, ?_, by decide⟩
  exact C2_readPoint_first_file_per_band envP ["p1.tif", "p2.tif", "p3.tif"] mP
    0 0 [10] [[20], [30]] hm (by rfl) (by decide)

theorem dedup_length_le_one_iff {α : Type} [DecidableEq α] (l : List α) :
    l.dedup.length ≤ 1 ↔ ∀ a ∈ l, ∀ b ∈ l, a = b := by
  constructor
  · intro h a ha b hb
    have ha' := List.mem_dedup.mpr ha
    have hb' := List.mem_dedup.mpr hb
    cases hd : l.dedup with
    | nil =>
      rw [hd] at ha'
      exact absurd ha' (List.not_mem_nil a)
    | cons x t =>
      rw [hd] at ha' hb' h
      cases t with
      | nil =>
        rw [List.mem_singleton.mp ha', List.mem_singleton.mp hb']
      | cons y t' => simp at h
  · intro h
    by_contra hc
    push_neg at hc
    have hnd := l.nodup_dedup
    cases hd : l.dedup with
    | nil =>
      rw [hd] at hc
      simp at hc
    | cons x t =>
      cases t with
      | nil =>
        rw [hd] at hc
        simp at hc
      | cons y t' =>
        rw [hd] at hnd
        have hx : x ∈ l := List.mem_dedup.mp (hd ▸ List.mem_cons_self _ _)
        have hy : y ∈ l := List.mem_dedup.mp
          (hd ▸ List.mem_cons_of_mem _ (List.mem_cons_self _ _))
        have hxy : x ≠ y :=
          fun he => (List.nodup_cons.mp hnd).1 (he ▸ List.mem_cons_self _ _)
        exact hxy (h x hx y hy)

theorem attrsPostInit_ok_reduce (env : String → Option Dataset)
    (ps : List String) (opened : List (String × Dataset))
    (h : openAll env ps = .ok opened) :
    MosaicReader.attrsPostInit env ps =
      match ((vals opened).map (·.minzoom)).min?,
          ((vals opened).map (·.maxzoom)).max? with
      | some minz, some maxz =>
        if (((vals opened).map (·.dtype)).dedup).length > 1 then
          .error (.exception "Datasets must be of the same data type.")
        else if (((vals opened).map (·.count)).dedup).length > 1 then
          .error (.exception "Datasets must be have the same number of bands.")
        else
          match (mosaicXs opened).min?, (mosaicYs opened).min?,
              (mosaicXs opened).max?, (mosaicYs opened).max? with
          | some bl, some bb, some br, some bt =>
            .ok { datasets := dictOf opened, minzoom := minz, maxzoom := maxz,
                  colormap := ((vals opened).filterMap (·.colormap)).head?,
                  bounds := ⟨bl, bb, br, bt⟩ }
          | _, _, _, _ => .error .valueError
      | _, _ => .error .valueError := by
  rw [MosaicReader.attrsPostInit, h]

theorem mosaicInit_ok_spec {env : String → Option Dataset}
    {ps : List String} {m : MosaicReader}
    (h : MosaicReader.attrsPostInit env ps = .ok m) :
    ∃ opened, openAll env ps = .ok opened ∧
      m.datasets = dictOf opened ∧
      ((vals opened).map (·.minzoom)).min? = some m.minzoom ∧
      ((vals opened).map (·.maxzoom)).max? = some m.maxzoom ∧
      (mosaicXs opened).min? = some m.bounds.left ∧
      (mosaicYs opened).min? = some m.bounds.bottom ∧
      (mosaicXs opened).max? = some m.bounds.right ∧
      (mosaicYs opened).max? = some m.bounds.top ∧
      m.colormap = ((vals opened).filterMap (·.colormap)).head? := by
  cases ho : openAll env ps with
  | error e =>
    rw [MosaicReader.attrsPostInit, ho] at h
    exact absurd h (by simp)
  | ok opened =>
    rw [attrsPostInit_ok_reduce env ps opened ho] at h
    refine ⟨opened, rfl, ?_⟩
    split at h
    · rename_i minz maxz hminz hmaxz
      split at h
      · exact absurd h (by simp)
      · split at h
        · exact absurd h (by simp)
        · split at h
          · rename_i bl bb br bt hbl hbb hbr hbt
            cases h
            exact ⟨rfl, hminz, hmaxz, hbl, hbb, hbr, hbt, rfl⟩
          · exact absurd h (by simp)
    · exact absurd h (by simp)

/-- **C3**: mosaic construction verifies that all member files share one
pixel data type and one band count: if two member files have differing
pixel data types construction fails with the "Datasets must be of the
same data type." error; if data types agree but two member files have
differing band counts it fails with the "Datasets must be have the same
number of bands." error (the spec's `ConfigurationError`s); if all member
files share the data type and the band count, these checks pass and
construction succeeds. -/
theorem C3_mosaic_uniform_checks (D : String → Dataset) (ps : List String)
    (hne : ps ≠ []) :
    ((∃ p ∈ ps, ∃ q ∈ ps, (D p).dtype ≠ (D q).dtype) →
      MosaicReader.attrsPostInit (envOf D) ps =
        .error (.exception "Datasets must be of the same data type.")) ∧
    ((∀ p ∈ ps, ∀ q ∈ ps, (D p).dtype = (D q).dtype) →
      (∃ p ∈ ps, ∃ q ∈ ps, (D p).count ≠ (D q).count) →
      MosaicReader.attrsPostInit (envOf D) ps =
        .error (.exception "Datasets must be have the same number of bands.")) ∧
    ((∀ p ∈ ps, ∀ q ∈ ps, (D p).dtype = (D q).dtype) →
      (∀ p ∈ ps, ∀ q ∈ ps, (D p).count = (D q).count) →
      (MosaicReader.attrsPostInit (envOf D) ps).isOk = true) := by
  have hmapne : ps.map (fun p => (p, D p)) ≠ [] := by simpa using hne
  have hvalsne : vals (ps.map (fun p => (p, D p))) ≠ [] := by
    rw [vals]
    intro hc
    exact dictOf_ne_nil hmapne (List.map_eq_nil_iff.mp hc)
  have hmemdt : ∀ a, a ∈ (vals (ps.map (fun p => (p, D p)))).map (·.dtype) ↔
      ∃ p ∈ ps, (D p).dtype = a := by
    intro a
    constructor
    · intro ha
      obtain ⟨d, hd, rfl⟩ := List.mem_map.mp ha
      obtain ⟨p, hp, rfl⟩ := dictOf_values_mem.mp hd
      exact ⟨p, hp, rfl⟩
    · intro ⟨p, hp, ha⟩
      exact List.mem_map.mpr ⟨D p, dictOf_values_mem.mpr ⟨p, hp, rfl⟩, ha⟩
  have hmemct : ∀ a, a ∈ (vals (ps.map (fun p => (p, D p)))).map (·.count) ↔
      ∃ p ∈ ps, (D p).count = a := by
    intro a
    constructor
    · intro ha
      obtain ⟨d, hd, rfl⟩ := List.mem_map.mp ha
      obtain ⟨p, hp, rfl⟩ := dictOf_values_mem.mp hd
      exact ⟨p, hp, rfl⟩
    · intro ⟨p, hp, ha⟩
      exact List.mem_map.mpr ⟨D p, dictOf_values_mem.mpr ⟨p, hp, rfl⟩, ha⟩
  obtain ⟨minz, hminz⟩ :
      ∃ z, ((vals (ps.map (fun p => (p, D p)))).map (·.minzoom)).min? = some z := by
    cases hz : ((vals (ps.map (fun p => (p, D p)))).map (·.minzoom)).min? with
    | none =>
      have h0 := List.min?_eq_none_iff.mp hz
      rw [List.map_eq_nil_iff] at h0
      exact absurd h0 hvalsne
    | some z => exact ⟨z, rfl⟩
  obtain ⟨maxz, hmaxz⟩ :
      ∃ z, ((vals (ps.map (fun p => (p, D p)))).map (·.maxzoom)).max? = some z := by
    cases hz : ((vals (ps.map (fun p => (p, D p)))).map (·.maxzoom)).max? with
    | none =>
      have h0 := List.max?_eq_none_iff.mp hz
      rw [List.map_eq_nil_iff] at h0
      exact absurd h0 hvalsne
    | some z => exact ⟨z, rfl⟩
  have hred := attrsPostInit_ok_reduce (envOf D) ps _ (openAll_envOf D ps)
  refine ⟨?_, ?_, ?_⟩
  · intro hex
    obtain ⟨p, hp, q, hq, hpq⟩ := hex
    have hgt : 1 < ((vals (ps.map (fun p => (p, D p)))).map (·.dtype)).dedup.length := by
      by_contra hle
      push_neg at hle
      have hall := (dedup_length_le_one_iff _).mp hle
      exact hpq (hall _ ((hmemdt _).mpr ⟨p, hp, rfl⟩) _ ((hmemdt _).mpr ⟨q, hq, rfl⟩))
    rw [hred, hminz, hmaxz]
    simp [hgt]
  · intro hdt hex
    obtain ⟨p, hp, q, hq, hpq⟩ := hex
    have hle1 : ¬1 < ((vals (ps.map (fun p => (p, D p)))).map (·.dtype)).dedup.length := by
      have hle : ((vals (ps.map (fun p => (p, D p)))).map (·.dtype)).dedup.length ≤ 1 := by
        refine (dedup_length_le_one_iff _).mpr ?_
        intro a ha b hb
        obtain ⟨pa, hpa, rfl⟩ := (hmemdt a).mp ha
        obtain ⟨pb, hpb, rfl⟩ := (hmemdt b).mp hb
        exact hdt pa hpa pb hpb
      omega
    have hgt2 : 1 < ((vals (ps.map (fun p => (p, D p)))).map (·.count)).dedup.length := by
      by_contra hle
      push_neg at hle
      have hall := (dedup_length_le_one_iff _).mp hle
      exact hpq (hall _ ((hmemct _).mpr ⟨p, hp, rfl⟩) _ ((hmemct _).mpr ⟨q, hq, rfl⟩))
    rw [hred, hminz, hmaxz]
    simp [hle1, hgt2]
  · intro hdt hct
    have hle1 : ¬1 < ((vals (ps.map (fun p => (p, D p)))).map (·.dtype)).dedup.length := by
      have hle : ((vals (ps.map (fun p => (p, D p)))).map (·.dtype)).dedup.length ≤ 1 := by
        refine (dedup_length_le_one_iff _).mpr ?_
        intro a ha b hb
        obtain ⟨pa, hpa, rfl⟩ := (hmemdt a).mp ha
        obtain ⟨pb, hpb, rfl⟩ := (hmemdt b).mp hb
        exact hdt pa hpa pb hpb
      omega
    have hle2 : ¬1 < ((vals (ps.map (fun p => (p, D p)))).map (·.count)).dedup.length := by
      have hle : ((vals (ps.map (fun p => (p, D p)))).map (·.count)).dedup.length ≤ 1 := by
        refine (dedup_length_le_one_iff _).mpr ?_
        intro a ha b hb
        obtain ⟨pa, hpa, rfl⟩ := (hmemct a).mp ha
        obtain ⟨pb, hpb, rfl⟩ := (hmemct b).mp hb
        exact hct pa hpa pb hpb
      omega
    have hxsne : mosaicXs (ps.map (fun p => (p, D p))) ≠ [] := by
      rw [mosaicXs]
      cases hv : vals (ps.map (fun p => (p, D p))) with
      | nil => exact absurd hv hvalsne
      | cons d t => simp
    have hysne : mosaicYs (ps.map (fun p => (p, D p))) ≠ [] := by
      rw [mosaicYs]
      cases hv : vals (ps.map (fun p => (p, D p))) with
      | nil => exact absurd hv hvalsne
      | cons d t => simp
    obtain ⟨bl, hbl⟩ : ∃ v, (mosaicXs (ps.map (fun p => (p, D p)))).min? = some v := by
      cases hz : (mosaicXs (ps.map (fun p => (p, D p)))).min? with
      | none => exact absurd (List.min?_eq_none_iff.mp hz) hxsne
      | some v => exact ⟨v, rfl⟩
    obtain ⟨bb, hbb⟩ : ∃ v, (mosaicYs (ps.map (fun p => (p, D p)))).min? = some v := by
      cases hz : (mosaicYs (ps.map (fun p => (p, D p)))).min? with
      | none => exact absurd (List.min?_eq_none_iff.mp hz) hysne
      | some v => exact ⟨v, rfl⟩
    obtain ⟨br, hbr⟩ : ∃ v, (mosaicXs (ps.map (fun p => (p, D p)))).max? = some v := by
      cases hz : (mosaicXs (ps.map (fun p => (p, D p)))).max? with
      | none => exact absurd (List.max?_eq_none_iff.mp hz) hxsne
      | some v => exact ⟨v, rfl⟩
    obtain ⟨bt, hbt⟩ : ∃ v, (mosaicYs (ps.map (fun p => (p, D p)))).max? = some v := by
      cases hz : (mosaicYs (ps.map (fun p => (p, D p)))).max? with
      | none => exact absurd (List.max?_eq_none_iff.mp hz) hysne
      | some v => exact ⟨v, rfl⟩
    rw [hred, hminz, hmaxz]
    simp [hle1, hle2, hbl, hbb, hbr, hbt, Except.isOk, Except.toBool]

/-- Witness for C3: differing data types fail, differing band counts fail,
uniform files succeed. -/
theorem C3_mosaic_uniform_checks_witness :
    MosaicReader.attrsPostInit (envOf DW2) ["a.tif", "c.tif"] =
      .error (.exception "Datasets must be of the same data type.") ∧
    MosaicReader.attrsPostInit (envOf DW3) ["a.tif", "d.tif"] =
      .error (.exception "Datasets must be have the same number of bands.") ∧
    (MosaicReader.attrsPostInit (envOf DW) ["a.tif", "b.tif"]).isOk = true := by
  refine ⟨?_, ?_, ?_⟩
  · exact (C3_mosaic_uniform_checks DW2 ["a.tif", "c.tif"] (by simp)).1
      ⟨"a.tif", by simp, "c.tif", by simp, by decide⟩
  · exact (C3_mosaic_uniform_checks DW3 ["a.tif", "d.tif"] (by simp)).2.1
      (by decide) ⟨"a.tif", by simp, "d.tif", by simp, by decide⟩
  · exact (C3_mosaic_uniform_checks DW ["a.tif", "b.tif"] (by simp)).2.2
      (by decide) (by decide)

/-- Counterexample for C4: `envBad` cannot open member file `b.tif`, yet
band and asset construction over `["a.tif", "b.tif"]` succeeds — the
failure is at position 1 and those constructors open only `files[0]`. -/
theorem C4_open_failure_counterexample :
    envBad "b.tif" = none ∧
    (MultiFilesBandsReader.attrsPostInit envBad ["a.tif", "b.tif"]).isOk = true ∧
    (MultiFilesAssetsReader.attrsPostInit envBad ["a.tif", "b.tif"]).isOk = true := by
  exact ⟨rfl, rfl, rfl⟩

/-- **C4 (amended)**: for the mosaic presentation, a member file that
cannot be opened — whatever its position — aborts construction with
`DatasetOpenError`; for the band and asset presentations only the first
file is opened at construction, so construction fails with
`DatasetOpenError` exactly when the first file cannot be opened and
succeeds regardless of later files.  In every case the constructor
returns either a complete state or an error — no partially constructed
set is exposed. -/
theorem C4_open_failure (env : String → Option Dataset) :
    (∀ ps p, p ∈ ps → env p = none →
      ∃ q ∈ ps, MosaicReader.attrsPostInit env ps =
        .error (.datasetOpenError q) ∧ env q = none) ∧
    (∀ f0 rest, env f0 = none →
      MultiFilesBandsReader.attrsPostInit env (f0 :: rest) =
        .error (.datasetOpenError f0)) ∧
    (∀ f0 rest d, env f0 = some d →
      (MultiFilesBandsReader.attrsPostInit env (f0 :: rest)).isOk = true) ∧
    (∀ f0 rest, env f0 = none →
      MultiFilesAssetsReader.attrsPostInit env (f0 :: rest) =
        .error (.datasetOpenError f0)) ∧
    (∀ f0 rest d, env f0 = some d →
      (MultiFilesAssetsReader.attrsPostInit env (f0 :: rest)).isOk = true) := by
  refine ⟨?_, ?_, ?_, ?_, ?_⟩
  · intro ps p hp hnone
    obtain ⟨q, hq, herr, hqn⟩ := openAll_error hp hnone
    refine ⟨q, hq, ?_, hqn⟩
    rw [MosaicReader.attrsPostInit, herr]
  · intro f0 rest h
    simp [MultiFilesBandsReader.attrsPostInit, h]
  · intro f0 rest d h
    simp [MultiFilesBandsReader.attrsPostInit, h, Except.isOk, Except.toBool]
  · intro f0 rest h
    simp [MultiFilesAssetsReader.attrsPostInit, h]
  · intro f0 rest d h
    simp [MultiFilesAssetsReader.attrsPostInit, h, Except.isOk, Except.toBool]

/-- Witness for C4 (amended) over `envBad` (`b.tif` unopenable). -/
theorem C4_open_failure_witness :
    (∃ q ∈ ["a.tif", "b.tif"],
      MosaicReader.attrsPostInit envBad ["a.tif", "b.tif"] =
        .error (.datasetOpenError q) ∧ envBad q = none) ∧
    MultiFilesBandsReader.attrsPostInit envBad ["b.tif", "a.tif"] =
      .error (.datasetOpenError "b.tif") ∧
    (MultiFilesBandsReader.attrsPostInit envBad ["a.tif", "b.tif"]).isOk = true ∧
    MultiFilesAssetsReader.attrsPostInit envBad ["b.tif", "a.tif"] =
      .error (.datasetOpenError "b.tif") ∧
    (MultiFilesAssetsReader.attrsPostInit envBad ["a.tif", "b.tif"]).isOk = true := by
  obtain ⟨hmos, hb1, hb2, ha1, ha2⟩ := C4_open_failure envBad
  refine ⟨hmos ["a.tif", "b.tif"] "b.tif" (by simp) rfl, ?_, ?_, ?_, ?_⟩
  · exact hb1 "b.tif" ["a.tif"] rfl
  · exact hb2 "a.tif" ["b.tif"] dsA rfl
  · exact ha1 "b.tif" ["a.tif"] rfl
  · exact ha2 "a.tif" ["b.tif"] dsA rfl

theorem bandsInit_ok {env : String → Option Dataset}
    {expansion : List String} {s : MultiFilesBandsReader}
    (h : MultiFilesBandsReader.attrsPostInit env expansion = .ok s) :
    s.files = expansion ∧
    s.bands = (List.range expansion.length).map bandName := by
  rw [MultiFilesBandsReader.attrsPostInit] at h
  split at h
  · exact absurd h (by simp)
  · split at h
    · exact absurd h (by simp)
    · cases h
      exact ⟨rfl, rfl⟩

theorem assetsInit_ok {env : String → Option Dataset}
    {expansion : List String} {s : MultiFilesAssetsReader}
    (h : MultiFilesAssetsReader.attrsPostInit env expansion = .ok s) :
    s.files = expansion ∧
    s.assets = (List.range expansion.length).map assetName := by
  rw [MultiFilesAssetsReader.attrsPostInit] at h
  split at h
  · exact absurd h (by simp)
  · split at h
    · exact absurd h (by simp)
    · cases h
      exact ⟨rfl, rfl⟩

/-- **C5**: `resolveLocator` round-trips against the logical-name
assignment: for every assigned name `b{i+1}` / `asset{i+1}` the band and
asset readers return the file locator stored at index `i` of `files`; for
every string not among the logical names they fail with the
`InvalidBandName` error (the spec's `UnknownBandError`). -/
theorem C5_resolveLocator_roundtrip
    (env : String → Option Dataset) (expansion : List String)
    (sB : MultiFilesBandsReader) (sA : MultiFilesAssetsReader)
    (hB : MultiFilesBandsReader.attrsPostInit env expansion = .ok sB)
    (hA : MultiFilesAssetsReader.attrsPostInit env expansion = .ok sA) :
    (∀ i, ∀ hi : i < sB.files.length,
      sB.getBandUrl (bandName i) = .ok (sB.files.get ⟨i, hi⟩)) ∧
    (∀ name, name ∉ sB.bands →
      sB.getBandUrl name = .error (.invalidBandName (name ++ " is not valid"))) ∧
    (∀ i, ∀ hi : i < sA.files.length,
      sA.getAssetUrl (assetName i) = .ok (sA.files.get ⟨i, hi⟩)) ∧
    (∀ name, name ∉ sA.assets →
      sA.getAssetUrl name = .error (.invalidBandName (name ++ " is not valid"))) := by
  obtain ⟨hfB, hbB⟩ := bandsInit_ok hB
  obtain ⟨hfA, hbA⟩ := assetsInit_ok hA
  have hbB' : sB.bands = (List.range sB.files.length).map bandName := by
    rw [hbB, hfB]
  have hbA' : sA.assets = (List.range sA.files.length).map assetName := by
    rw [hbA, hfA]
  refine ⟨?_, ?_, ?_, ?_⟩
  · intro i hi
    have hndB : sB.bands.Nodup := by
      rw [hbB']
      exact (List.nodup_range _).map bandName_inj
    have hmem : bandName i ∈ sB.bands := by
      rw [hbB']
      exact List.mem_map.mpr ⟨i, List.mem_range.mpr hi, rfl⟩
    have hilt : i < sB.bands.length := by
      rw [hbB']
      simpa using hi
    have hget : sB.bands.get ⟨i, hilt⟩ = bandName i := by
      simp [hbB']
    have hidx : sB.bands.indexOf (bandName i) = i := by
      rw [← hget]
      exact List.get_indexOf hndB ⟨i, hilt⟩
    rw [MultiFilesBandsReader.getBandUrl, if_neg (fun hc => hc hmem), hidx,
      List.get?_eq_get hi]
  · intro name hnm
    rw [MultiFilesBandsReader.getBandUrl, if_pos hnm]
  · intro i hi
    have hndA : sA.assets.Nodup := by
      rw [hbA']
      exact (List.nodup_range _).map assetName_inj
    have hmem : assetName i ∈ sA.assets := by
      rw [hbA']
      exact List.mem_map.mpr ⟨i, List.mem_range.mpr hi, rfl⟩
    have hilt : i < sA.assets.length := by
      rw [hbA']
      simpa using hi
    have hget : sA.assets.get ⟨i, hilt⟩ = assetName i := by
      simp [hbA']
    have hidx : sA.assets.indexOf (assetName i) = i := by
      rw [← hget]
      exact List.get_indexOf hndA ⟨i, hilt⟩
    rw [MultiFilesAssetsReader.getAssetUrl, if_neg (fun hc => hc hmem), hidx,
      List.get?_eq_get hi]
  · intro name hnm
    rw [MultiFilesAssetsReader.getAssetUrl, if_pos hnm]

/-- Witness for C5 on the two-file band/asset readers over `envW`. -/
theorem C5_resolveLocator_roundtrip_witness :
    MultiFilesBandsReader.attrsPostInit envW ["a.tif", "b.tif"] = .ok sBW ∧
    sBW.getBandUrl "b1" = .ok "a.tif" ∧
    sBW.getBandUrl "zzz" = .error (.invalidBandName "zzz is not valid") ∧
    MultiFilesAssetsReader.attrsPostInit envW ["a.tif", "b.tif"] = .ok sAW ∧
    sAW.getAssetUrl "asset2" = .ok "b.tif" ∧
    sAW.getAssetUrl "zzz" = .error (.invalidBandName "zzz is not valid") := by
  have hb1 : bandName 0 = "b1" := by
    rw [bandName, pyStr, decDigits_lt 1 (by norm_num)]
    rfl
  have hb2 : bandName 1 = "b2" := by
    rw [bandName, pyStr, decDigits_lt 2 (by norm_num)]
    rfl
  have ha1 : assetName 0 = "asset1" := by
    rw [assetName, pyStr, decDigits_lt 1 (by norm_num)]
    rfl
  have ha2 : assetName 1 = "asset2" := by
    rw [assetName, pyStr, decDigits_lt 2 (by norm_num)]
    rfl
  have hbands : sBW.bands = ["b1", "b2"] := by
    show (List.range 2).map bandName = ["b1", "b2"]
    rw [show List.range 2 = [0, 1] from rfl, List.map_cons, List.map_cons,
      List.map_nil, hb1, hb2]
  have hassets : sAW.assets = ["asset1", "asset2"] := by
    show (List.range 2).map assetName = ["asset1", "asset2"]
    rw [show List.range 2 = [0, 1] from rfl, List.map_cons, List.map_cons,
      List.map_nil, ha1, ha2]
  have hB : MultiFilesBandsReader.attrsPostInit envW ["a.tif", "b.tif"]
      = .ok sBW := rfl
  have hA : MultiFilesAssetsReader.attrsPostInit envW ["a.tif", "b.tif"]
      = .ok sAW := rfl
  obtain ⟨h1, h2, h3, h4⟩ :=
    C5_resolveLocator_roundtrip envW ["a.tif", "b.tif"] sBW sAW hB hA
  refine ⟨hB, ?_, ?_, hA, ?_, ?_⟩
  · have := h1 0 (by decide)
    rw [hb1] at this
    simpa using this
  · refine h2 "zzz" ?_
    rw [hbands]
    decide
  · have := h3 1 (by decide)
    rw [ha2] at this
    simpa using this
  · refine h4 "zzz" ?_
    rw [hassets]
    decide

theorem mosaicInit_envOf_spec {D : String → Dataset} {ps : List String}
    {m : MosaicReader}
    (hm : MosaicReader.attrsPostInit (envOf D) ps = .ok m) :
    m.datasets = dictOf (ps.map (fun p => (p, D p))) ∧
    ((vals (ps.map (fun p => (p, D p)))).map (·.minzoom)).min? = some m.minzoom ∧
    ((vals (ps.map (fun p => (p, D p)))).map (·.maxzoom)).max? = some m.maxzoom ∧
    (mosaicXs (ps.map (fun p => (p, D p)))).min? = some m.bounds.left ∧
    (mosaicYs (ps.map (fun p => (p, D p)))).min? = some m.bounds.bottom ∧
    (mosaicXs (ps.map (fun p => (p, D p)))).max? = some m.bounds.right ∧
    (mosaicYs (ps.map (fun p => (p, D p)))).max? = some m.bounds.top ∧
    m.colormap =
      ((vals (ps.map (fun p => (p, D p)))).filterMap (·.colormap)).head? := by
  obtain ⟨opened, ho, hrest⟩ := mosaicInit_ok_spec hm
  have hop : opened = ps.map (fun p => (p, D p)) := by
    have h2 := (openAll_envOf D ps).symm.trans ho
    injection h2 with h3
    exact h3.symm
  subst hop
  exact hrest

theorem mosaicXs_mem (D : String → Dataset) (ps : List String) (a : ℚ) :
    a ∈ mosaicXs (ps.map (fun p => (p, D p))) ↔
      ∃ p ∈ ps, a = (D p).bounds.left ∨ a = (D p).bounds.right := by
  rw [mosaicXs, List.mem_flatMap]
  constructor
  · intro ⟨d, hd, ha⟩
    obtain ⟨p, hp, rfl⟩ := dictOf_values_mem.mp hd
    simp only [List.mem_cons, List.mem_singleton] at ha
    rcases ha with h | h | h
    · exact ⟨p, hp, Or.inl h⟩
    · exact ⟨p, hp, Or.inr h⟩
    · exact absurd h (List.not_mem_nil a)
  · intro ⟨p, hp, ha⟩
    refine ⟨D p, dictOf_values_mem.mpr ⟨p, hp, rfl⟩, ?_⟩
    rcases ha with rfl | rfl
    · simp
    · simp

theorem mosaicYs_mem (D : String → Dataset) (ps : List String) (a : ℚ) :
    a ∈ mosaicYs (ps.map (fun p => (p, D p))) ↔
      ∃ p ∈ ps, a = (D p).bounds.bottom ∨ a = (D p).bounds.top := by
  rw [mosaicYs, List.mem_flatMap]
  constructor
  · intro ⟨d, hd, ha⟩
    obtain ⟨p, hp, rfl⟩ := dictOf_values_mem.mp hd
    simp only [List.mem_cons, List.mem_singleton] at ha
    rcases ha with h | h | h
    · exact ⟨p, hp, Or.inl h⟩
    · exact ⟨p, hp, Or.inr h⟩
    · exact absurd h (List.not_mem_nil a)
  · intro ⟨p, hp, ha⟩
    refine ⟨D p, dictOf_values_mem.mpr ⟨p, hp, rfl⟩, ?_⟩
    rcases ha with rfl | rfl
    · simp
    · simp

/-- **C7**: for the union-aggregation (mosaic) construction, the
constructed set's `minzoom` is the minimum of the member files' minzooms
and its `maxzoom` is the maximum of the member files' maxzooms. -/
theorem C7_mosaic_zoom_aggregates (D : String → Dataset) (ps : List String)
    (m : MosaicReader)
    (hm : MosaicReader.attrsPostInit (envOf D) ps = .ok m) :
    (ps.map (fun p => (D p).minzoom)).min? = some m.minzoom ∧
    (ps.map (fun p => (D p).maxzoom)).max? = some m.maxzoom := by
  obtain ⟨_, hminz, hmaxz, _⟩ := mosaicInit_envOf_spec hm
  have hmem1 : ∀ a : Int,
      a ∈ (vals (ps.map (fun p => (p, D p)))).map (·.minzoom) ↔
      a ∈ ps.map (fun p => (D p).minzoom) := by
    intro a
    rw [List.mem_map, List.mem_map]
    constructor
    · intro ⟨d, hd, hda⟩
      obtain ⟨p, hp, hpd⟩ := dictOf_values_mem.mp hd
      exact ⟨p, hp, by rw [hpd, hda]⟩
    · intro ⟨p, hp, hpa⟩
      exact ⟨D p, dictOf_values_mem.mpr ⟨p, hp, rfl⟩, hpa⟩
  have hmem2 : ∀ a : Int,
      a ∈ (vals (ps.map (fun p => (p, D p)))).map (·.maxzoom) ↔
      a ∈ ps.map (fun p => (D p).maxzoom) := by
    intro a
    rw [List.mem_map, List.mem_map]
    constructor
    · intro ⟨d, hd, hda⟩
      obtain ⟨p, hp, hpd⟩ := dictOf_values_mem.mp hd
      exact ⟨p, hp, by rw [hpd, hda]⟩
    · intro ⟨p, hp, hpa⟩
      exact ⟨D p, dictOf_values_mem.mpr ⟨p, hp, rfl⟩, hpa⟩
  constructor
  · rw [min?_congr_mem (fun a => (hmem1 a).symm)]
    exact hminz
  · rw [max?_congr_mem (fun a => (hmem2 a).symm)]
    exact hmaxz

/-- Witness for C7 on the two-file mosaic over `envOf DW`. -/
theorem C7_mosaic_zoom_aggregates_witness :
    MosaicReader.attrsPostInit (envOf DW) ["a.tif", "b.tif"] = .ok mWD ∧
    (["a.tif", "b.tif"].map (fun p => (DW p).minzoom)).min? = some mWD.minzoom ∧
    (["a.tif", "b.tif"].map (fun p => (DW p).maxzoom)).max? = some mWD.maxzoom := by
  have hm : MosaicReader.attrsPostInit (envOf DW) ["a.tif", "b.tif"]
      = .ok mWD := by rfl
  exact ⟨hm, C7_mosaic_zoom_aggregates DW ["a.tif", "b.tif"] mWD hm⟩

/-- **C6**: for the union-aggregation (mosaic) construction with
well-formed member bounding boxes, `boundingEnvelope` equals the
componentwise aggregate of the member files' boxes — minimum of left
edges, minimum of bottom edges, maximum of right edges, maximum of top
edges — and the envelope is the same for every permutation of the file
order. -/
theorem C6_mosaic_bounds_union (D : String → Dataset) (ps : List String)
    (m : MosaicReader)
    (hm : MosaicReader.attrsPostInit (envOf D) ps = .ok m)
    (hwf : ∀ p ∈ ps, (D p).bounds.left ≤ (D p).bounds.right ∧
      (D p).bounds.bottom ≤ (D p).bounds.top) :
    (ps.map (fun p => (D p).bounds.left)).min? = some m.bounds.left ∧
    (ps.map (fun p => (D p).bounds.bottom)).min? = some m.bounds.bottom ∧
    (ps.map (fun p => (D p).bounds.right)).max? = some m.bounds.right ∧
    (ps.map (fun p => (D p).bounds.top)).max? = some m.bounds.top ∧
    (∀ ps' m', ps'.Perm ps →
      MosaicReader.attrsPostInit (envOf D) ps' = .ok m' →
      m'.bounds = m.bounds) := by
  obtain ⟨_, _, _, hbl, hbb, hbr, hbt, _⟩ := mosaicInit_envOf_spec hm
  obtain ⟨hblmem, hblle⟩ := min?_eq_some_iff_lin.mp hbl
  obtain ⟨hbbmem, hbble⟩ := min?_eq_some_iff_lin.mp hbb
  obtain ⟨hbrmem, hbrle⟩ := max?_eq_some_iff_lin.mp hbr
  obtain ⟨hbtmem, hbtle⟩ := max?_eq_some_iff_lin.mp hbt
  refine ⟨?_, ?_, ?_, ?_, ?_⟩
  · rw [min?_eq_some_iff_lin]
    constructor
    · obtain ⟨p, hp, hcase⟩ := (mosaicXs_mem D ps _).mp hblmem
      rcases hcase with hL | hR
      · exact List.mem_map.mpr ⟨p, hp, hL.symm⟩
      · have hlmem := (mosaicXs_mem D ps _).mpr ⟨p, hp, Or.inl rfl⟩
        have hle := hblle _ hlmem
        have hx : (D p).bounds.left ≤ m.bounds.left := by
          rw [hR]
          exact (hwf p hp).1
        exact List.mem_map.mpr ⟨p, hp, le_antisymm hx hle⟩
    · intro b hb
      obtain ⟨p, hp, rfl⟩ := List.mem_map.mp hb
      exact hblle _ ((mosaicXs_mem D ps _).mpr ⟨p, hp, Or.inl rfl⟩)
  · rw [min?_eq_some_iff_lin]
    constructor
    · obtain ⟨p, hp, hcase⟩ := (mosaicYs_mem D ps _).mp hbbmem
      rcases hcase with hL | hR
      · exact List.mem_map.mpr ⟨p, hp, hL.symm⟩
      · have hlmem := (mosaicYs_mem D ps _).mpr ⟨p, hp, Or.inl rfl⟩
        have hle := hbble _ hlmem
        have hx : (D p).bounds.bottom ≤ m.bounds.bottom := by
          rw [hR]
          exact (hwf p hp).2
        exact List.mem_map.mpr ⟨p, hp, le_antisymm hx hle⟩
    · intro b hb
      obtain ⟨p, hp, rfl⟩ := List.mem_map.mp hb
      exact hbble _ ((mosaicYs_mem D ps _).mpr ⟨p, hp, Or.inl rfl⟩)
  · rw [max?_eq_some_iff_lin]
    constructor
    · obtain ⟨p, hp, hcase⟩ := (mosaicXs_mem D ps _).mp hbrmem
      rcases hcase with hL | hR
      · have hrmem := (mosaicXs_mem D ps _).mpr ⟨p, hp, Or.inr rfl⟩
        have hle := hbrle _ hrmem
        have hx : m.bounds.right ≤ (D p).bounds.right := by
          rw [hL]
          exact (hwf p hp).1
        exact List.mem_map.mpr ⟨p, hp, le_antisymm hle hx⟩
      · exact List.mem_map.mpr ⟨p, hp, hR.symm⟩
    · intro b hb
      obtain ⟨p, hp, rfl⟩ := List.mem_map.mp hb
      exact hbrle _ ((mosaicXs_mem D ps _).mpr ⟨p, hp, Or.inr rfl⟩)
  · rw [max?_eq_some_iff_lin]
    constructor
    · obtain ⟨p, hp, hcase⟩ := (mosaicYs_mem D ps _).mp hbtmem
      rcases hcase with hL | hR
      · have hrmem := (mosaicYs_mem D ps _).mpr ⟨p, hp, Or.inr rfl⟩
        have hle := hbtle _ hrmem
        have hx : m.bounds.top ≤ (D p).bounds.top := by
          rw [hL]
          exact (hwf p hp).2
        exact List.mem_map.mpr ⟨p, hp, le_antisymm hle hx⟩
      · exact List.mem_map.mpr ⟨p, hp, hR.symm⟩
    · intro b hb
      obtain ⟨p, hp, rfl⟩ := List.mem_map.mp hb
      exact hbtle _ ((mosaicYs_mem D ps _).mpr ⟨p, hp, Or.inr rfl⟩)
  · intro ps' m' hperm hm'
    obtain ⟨_, _, _, hbl', hbb', hbr', hbt', _⟩ := mosaicInit_envOf_spec hm'
    have hmemx : ∀ a, a ∈ mosaicXs (ps'.map (fun p => (p, D p))) ↔
        a ∈ mosaicXs (ps.map (fun p => (p, D p))) := by
      intro a
      rw [mosaicXs_mem D ps' a, mosaicXs_mem D ps a]
      constructor
      · intro ⟨p, hp, hc⟩
        exact ⟨p, hperm.mem_iff.mp hp, hc⟩
      · intro ⟨p, hp, hc⟩
        exact ⟨p, hperm.mem_iff.mpr hp, hc⟩
    have hmemy : ∀ a, a ∈ mosaicYs (ps'.map (fun p => (p, D p))) ↔
        a ∈ mosaicYs (ps.map (fun p => (p, D p))) := by
      intro a
      rw [mosaicYs_mem D ps' a, mosaicYs_mem D ps a]
      constructor
      · intro ⟨p, hp, hc⟩
        exact ⟨p, hperm.mem_iff.mp hp, hc⟩
      · intro ⟨p, hp, hc⟩
        exact ⟨p, hperm.mem_iff.mpr hp, hc⟩
    have e1 : m'.bounds.left = m.bounds.left := by
      have := (min?_congr_mem hmemx).symm.trans hbl'
      rw [hbl] at this
      injection this with h'
      exact h'.symm
    have e2 : m'.bounds.bottom = m.bounds.bottom := by
      have := (min?_congr_mem hmemy).symm.trans hbb'
      rw [hbb] at this
      injection this with h'
      exact h'.symm
    have e3 : m'.bounds.right = m.bounds.right := by
      have := (max?_congr_mem hmemx).symm.trans hbr'
      rw [hbr] at this
      injection this with h'
      exact h'.symm
    have e4 : m'.bounds.top = m.bounds.top := by
      have := (max?_congr_mem hmemy).symm.trans hbt'
      rw [hbt] at this
      injection this with h'
      exact h'.symm
    have hEta : m'.bounds =
        ⟨m'.bounds.left, m'.bounds.bottom, m'.bounds.right, m'.bounds.top⟩ := rfl
    rw [hEta, e1, e2, e3, e4]

/-- Witness for C6 on the two-file mosaic over `envOf DW`. -/
theorem C6_mosaic_bounds_union_witness :
    MosaicReader.attrsPostInit (envOf DW) ["a.tif", "b.tif"] = .ok mWD ∧
    (["a.tif", "b.tif"].map (fun p => (DW p).bounds.left)).min?
      = some mWD.bounds.left ∧
    (["a.tif", "b.tif"].map (fun p => (DW p).bounds.top)).max?
      = some mWD.bounds.top := by
  have hm : MosaicReader.attrsPostInit (envOf DW) ["a.tif", "b.tif"]
      = .ok mWD := by rfl
  have h := C6_mosaic_bounds_union DW ["a.tif", "b.tif"] mWD hm (by decide)
  exact ⟨hm, h.1, h.2.2.2.1⟩

/-- **C8**: for every expansion of `n ≥ 1` files, the constructed
`logicalNames` sequence has length `n` and its `i`-th entry is generated
deterministically from the position as `"b" ++ str(i+1)` (band mode) or
`"asset" ++ str(i+1)` (asset mode), independent of file content (two
environments over the same expansion yield the same names). -/
theorem C8_logicalNames_generation
    (env env' : String → Option Dataset) (expansion : List String) (n : Nat)
    (hn : expansion.length = n) (_hpos : 1 ≤ n)
    (sB sB' : MultiFilesBandsReader) (sA : MultiFilesAssetsReader)
    (hB : MultiFilesBandsReader.attrsPostInit env expansion = .ok sB)
    (hB' : MultiFilesBandsReader.attrsPostInit env' expansion = .ok sB')
    (hA : MultiFilesAssetsReader.attrsPostInit env expansion = .ok sA) :
    sB.bands.length = n ∧
    (∀ i, i < n → sB.bands.get? i = some ("b" ++ pyStr (i + 1))) ∧
    sA.assets.length = n ∧
    (∀ i, i < n → sA.assets.get? i = some ("asset" ++ pyStr (i + 1))) ∧
    sB'.bands = sB.bands := by
  obtain ⟨_, hbB⟩ := bandsInit_ok hB
  obtain ⟨_, hbB'⟩ := bandsInit_ok hB'
  obtain ⟨_, hbA⟩ := assetsInit_ok hA
  refine ⟨?_, ?_, ?_, ?_, ?_⟩
  · rw [hbB, hn]
    simp
  · intro i hi
    rw [hbB, hn, List.get?_map, List.get?_range hi]
    rfl
  · rw [hbA, hn]
    simp
  · intro i hi
    rw [hbA, hn, List.get?_map, List.get?_range hi]
    rfl
  · rw [hbB, hbB']

/-- Witness for C8 on the two-file expansion; `envBad` cannot open the
second file yet produces the same names (content independence). -/
theorem C8_logicalNames_generation_witness :
    MultiFilesBandsReader.attrsPostInit envW ["a.tif", "b.tif"] = .ok sBW ∧
    sBW.bands.length = 2 ∧
    sBW.bands.get? 1 = some "b2" ∧
    sAW.assets.get? 0 = some "asset1" := by
  obtain ⟨h1, h2, h3, h4, h5⟩ := C8_logicalNames_generation envW envBad
    ["a.tif", "b.tif"] 2 rfl (by norm_num) sBW sBW sAW rfl rfl rfl
  refine ⟨rfl, h1, ?_, ?_⟩
  · have hv := h2 1 (by norm_num)
    rw [show pyStr 2 = "2" by
      rw [pyStr, decDigits_lt 2 (by norm_num)]
      rfl] at hv
    exact hv
  · have hv := h4 0 (by norm_num)
    rw [show pyStr 1 = "1" by
      rw [pyStr, decDigits_lt 1 (by norm_num)]
      rfl] at hv
    exact hv

/-- **C9**: for the mosaic presentation, `info()` returns metadata taken
entirely from the first member file in file order, with the `bounds`,
`center`, `minzoom` and `maxzoom` fields replaced by the aggregate values
computed at construction and the size fields (`width`, `height`,
`overviews`) dropped; the metadata of files after the first does not
appear in the result. -/
theorem C9_info_first_file (D : String → Dataset) (p : String)
    (ps' : List String) (m : MosaicReader)
    (hm : MosaicReader.attrsPostInit (envOf D) (p :: ps') = .ok m) :
    m.info = some
      { bounds := m.bounds,
        center := ((m.bounds.left + m.bounds.right) / 2,
          (m.bounds.bottom + m.bounds.top) / 2, m.minzoom),
        minzoom := m.minzoom, maxzoom := m.maxzoom,
        band_metadata := (D p).info.band_metadata,
        band_descriptions := (D p).info.band_descriptions,
        dtype := (D p).info.dtype,
        nodata_type := (D p).info.nodata_type,
        colorinterp := (D p).info.colorinterp,
        width := none, height := none, overviews := none } := by
  have hds : m.datasets =
      dictOf (((p :: ps')).map (fun q => (q, D q))) :=
    (mosaicInit_envOf_spec hm).1
  rw [List.map_cons] at hds
  have hne : m.datasets ≠ [] := by
    rw [hds]
    exact dictOf_ne_nil (by simp)
  cases hhead : m.datasets with
  | nil => exact absurd hhead hne
  | cons x rest2 =>
    obtain ⟨k0, d0⟩ := x
    have hk : k0 = p := by
      have hkey := @dictOf_head_key (p, D p) (ps'.map (fun q => (q, D q)))
      rw [← hds, hhead] at hkey
      simpa using hkey
    have hd0 : d0 = D p := by
      have hmem : (k0, d0) ∈ dictOf ((p, D p) :: ps'.map (fun q => (q, D q))) := by
        rw [← hds, hhead]
        exact List.mem_cons_self _ _
      have hmem2 := dictOf_mem hmem
      rcases List.mem_cons.mp hmem2 with h | h
      · obtain ⟨h1, h2⟩ := Prod.mk.injEq .. ▸ h
        rw [h2]
      · obtain ⟨q, _, hqx⟩ := List.mem_map.mp h
        obtain ⟨h1, h2⟩ := Prod.mk.injEq .. ▸ hqx.symm
        rw [h2, h1.symm, hk]
    subst hk
    subst hd0
    rw [MosaicReader.info, hhead]
    rfl

/-- Witness for C9 on the two-file mosaic over `envOf DW`: the result is
the first file's metadata with the aggregate spatial fields. -/
theorem C9_info_first_file_witness :
    MosaicReader.attrsPostInit (envOf DW) ["a.tif", "b.tif"] = .ok mWD ∧
    mWD.info = some
      { bounds := ⟨0, 0, 12, 12⟩, center := (6, 6, 1),
        minzoom := 1, maxzoom := 6,
        band_metadata := [("1", "")], band_descriptions := [("1", "x")],
        dtype := "uint8", nodata_type := "None", colorinterp := ["gray"],
        width := none, height := none, overviews := none } := by
  have hm : MosaicReader.attrsPostInit (envOf DW) ["a.tif", "b.tif"]
      = .ok mWD := by rfl
  refine ⟨hm, ?_⟩
  have h := C9_info_first_file DW "a.tif" ["b.tif"] mWD hm
  rw [h]
  norm_num [mWD, DW, dsA, infoT]

theorem openAll_keys {env : String → Option Dataset} :
    ∀ {ps : List String} {opened : List (String × Dataset)},
    openAll env ps = .ok opened → opened.map (·.1) = ps := by
  intro ps
  induction ps with
  | nil =>
    intro opened h
    cases h
    rfl
  | cons p rest ih =>
    intro opened h
    rw [openAll] at h
    cases he : env p with
    | none =>
      rw [he] at h
      exact absurd h (by simp)
    | some d =>
      rw [he] at h
      cases ho : openAll env rest with
      | error e =>
        rw [ho] at h
        exact absurd h (by simp [Except.map])
      | ok l =>
        rw [ho] at h
        simp only [Except.map, Except.ok.injEq] at h
        rw [← h]
        simp [ih ho]

/-- **C10**: when the brace expansion repeats a file path, the mosaic
presentation deduplicates it — the member-dataset dict has one entry per
distinct path (keys are distinct and range over exactly the expanded
paths), so a repeated path contributes only once to tile compositing and
point sampling — whereas the band and asset presentations keep one entry
per occurrence, assigning a distinct logical name to each occurrence. -/
theorem C10_duplicate_handling
    (env : String → Option Dataset) (expansion : List String)
    (m : MosaicReader) (sB : MultiFilesBandsReader)
    (sA : MultiFilesAssetsReader)
    (hm : MosaicReader.attrsPostInit env expansion = .ok m)
    (hB : MultiFilesBandsReader.attrsPostInit env expansion = .ok sB)
    (hA : MultiFilesAssetsReader.attrsPostInit env expansion = .ok sA) :
    m.keys.Nodup ∧
    (∀ p, p ∈ m.keys ↔ p ∈ expansion) ∧
    sB.files = expansion ∧ sB.bands.Nodup ∧
    sB.bands.length = expansion.length ∧
    sA.files = expansion ∧ sA.assets.Nodup ∧
    sA.assets.length = expansion.length := by
  obtain ⟨opened, ho, hds⟩ := mosaicInit_datasets hm
  obtain ⟨hfB, hbB⟩ := bandsInit_ok hB
  obtain ⟨hfA, hbA⟩ := assetsInit_ok hA
  refine ⟨keys_nodup_of_init hm, ?_, hfB, ?_, ?_, hfA, ?_, ?_⟩
  · intro p
    rw [MosaicReader.keys, hds, dictOf_keys_mem, openAll_keys ho]
  · rw [hbB]
    exact (List.nodup_range _).map bandName_inj
  · rw [hbB]
    simp
  · rw [hbA]
    exact (List.nodup_range _).map assetName_inj
  · rw [hbA]
    simp

/-- Witness for C10 on the duplicated expansion `["a.tif", "a.tif"]`:
the mosaic keeps one dataset; the band/asset readers keep two files with
distinct names. -/
theorem C10_duplicate_handling_witness :
    MosaicReader.attrsPostInit envW ["a.tif", "a.tif"] = .ok mDup ∧
    mDup.datasets.length = 1 ∧
    MultiFilesBandsReader.attrsPostInit envW ["a.tif", "a.tif"] = .ok sBdup ∧
    sBdup.files.length = 2 ∧ sBdup.bands.Nodup ∧ sAdup.assets.Nodup := by
  obtain ⟨h1, h2, h3, h4, h5, h6, h7, h8⟩ := C10_duplicate_handling envW
    ["a.tif", "a.tif"] mDup sBdup sAdup rfl rfl rfl
  exact ⟨rfl, rfl, rfl, rfl, h4, h7⟩

end RioViz
